import Mathlib

/-!
A shallow embedding, in Lean 4, of the MCP security scanner
(`src/mcp_security_scanner.py`): its pattern matching, detectors, score
aggregation (including the exact binary64 floating-point behaviour of the
overall score), certification ladder and report assembly, together with
theorems settling the specification claims C1 - C10.

Modelling conventions:
* File contents are `String`s; a repository is the ordered list of files
  produced by `os.walk`, each with its basename and the outcome of reading
  it (`ReadResult`): `ok content`, `decodeError` (a `UnicodeDecodeError`
  raised by `f.read()`), or `ioError` (an `IOError`/`PermissionError`
  raised by `open()`).
* Regular-expression searches are modelled by an executable token matcher
  (`matchToks`): alternations of literals become substring alternatives,
  `\s*`/`\s+` become whitespace skips, `.*`/`.*?` become an existential gap
  (for `re.search`, greediness is irrelevant to whether a match exists).
* All Python float arithmetic on category scores is exact (the values are
  small multiples of 1/2), so it is embedded in `ℚ`; the overall weighted
  score is NOT exact in binary64, so it is embedded by an exact model of
  IEEE-754 double arithmetic on scaled integers (`fpNorm`, `fpMul`,
  `fpAdd`), with the weight literals 0.25, 0.2 and 0.15 taken at their
  exact double values.
* Python `round` is round-half-to-even on the exact value of the double.
-/

namespace MCPScan

set_option maxRecDepth 16000

/-! ## Characters and substring search -/

/-- ASCII lower-casing of one character, as Python `str.lower` acts on ASCII. -/
def asciiLower (c : Char) : Char :=
  if 'A' ≤ c ∧ c ≤ 'Z' then Char.ofNat (c.toNat + 32) else c

/-- `s.lower()` for the ASCII strings handled by the scanner. -/
def lowerStr (s : String) : String := ⟨s.data.map asciiLower⟩

/-- A regex `\s` whitespace character. -/
def isWs (c : Char) : Bool := c = ' ' ∨ c = '\t' ∨ c = '\n' ∨ c = '\r'

/-- A regex `\w` word character. -/
def isWordChar (c : Char) : Bool :=
  ('a' ≤ c ∧ c ≤ 'z') ∨ ('A' ≤ c ∧ c ≤ 'Z') ∨ ('0' ≤ c ∧ c ≤ '9') ∨ c = '_'

/-- A character of the class `[\w\-]`. -/
def isWordDash (c : Char) : Bool := isWordChar c ∨ c = '-'

/-- A decimal digit. -/
def isDigitCh (c : Char) : Bool := '0' ≤ c ∧ c ≤ '9'

/-- Does the second list occur as an initial segment of the first? -/
def startsWithL : List Char → List Char → Bool
  | _, [] => true
  | [], _ :: _ => false
  | c :: cs, p :: ps => c = p && startsWithL cs ps

/-- Tokens of the fragment of regular expressions used by the scanner. -/
inductive RTok
  | lit (s : String)   -- a literal substring
  | gap                -- `.*` / `.*?` (existence of a match is what counts)
  | wsStar             -- `\s*`
  | wsPlus             -- `\s+`
  | quoteTok           -- a quote class such as `['\"]`
  | wordRun            -- `[\w\-]+`
  | wordOne            -- `\w`

/-- Match a token list at the head of a character list (structural in the
token list; a `gap` searches every suffix via `List.tails`). -/
def matchToks : List RTok → List Char → Bool
  | [], _ => true
  | .lit p :: ts, cs => startsWithL cs p.data && matchToks ts (cs.drop p.length)
  | .gap :: ts, cs => cs.tails.any (fun suf => matchToks ts suf)
  | .wsStar :: ts, cs => matchToks ts (cs.dropWhile isWs)
  | .wsPlus :: ts, cs =>
      match cs with
      | c :: r => isWs c && matchToks ts (r.dropWhile isWs)
      | [] => false
  | .quoteTok :: ts, cs =>
      match cs with
      | c :: r => (c = '\'' || c = '"') && matchToks ts r
      | [] => false
  | .wordRun :: ts, cs =>
      match cs with
      | c :: r => isWordDash c && matchToks ts (r.dropWhile isWordDash)
      | [] => false
  | .wordOne :: ts, cs =>
      match cs with
      | c :: r => isWordChar c && matchToks ts r
      | [] => false

/-- `re.search(pat, s)`: the pattern matches at some position of `s`. -/
def rsearch (pat : List RTok) (s : String) : Bool := matchToks (.gap :: pat) s.data

/-- Does `s` contain `sub` as a substring? -/
def hasSubstr (s sub : String) : Bool := rsearch [.lit sub] s

/-- Does `s` contain one of the listed substrings (a regex alternation of
literals)? -/
def anySub (subs : List String) (s : String) : Bool := subs.any (fun p => hasSubstr s p)

/-- Does `s` end with the suffix `suf` (Python `str.endswith`)? -/
def endsWithStr (s suf : String) : Bool := startsWithL s.data.reverse suf.data.reverse

/-- Python `str.strip` on ASCII whitespace. -/
def stripL (cs : List Char) : List Char :=
  ((cs.dropWhile isWs).reverse.dropWhile isWs).reverse

/-! ## Data model: findings and the repository -/

/-- The severity strings used by the scanner's findings. -/
inductive Severity
  | CRITICAL | HIGH | MEDIUM | LOW | INFO
deriving DecidableEq

/-- One finding dictionary as appended by the detectors.  `line_number` is
never set by any detector of the source; `code_snippet` is attached by
`scan` after the detectors ran. -/
structure Finding where
  severity : Severity
  file : String
  category : String
  description : String
  recommendation : String
  line_number : Option Nat := none
  code_snippet : Option String := none
deriving DecidableEq

instance : DecidableEq (Except Unit (List Finding)) := fun x y =>
  match x, y with
  | .ok a, .ok b =>
    if h : a = b then isTrue (by rw [h]) else isFalse (by simp [h])
  | .error a, .error b => isTrue (by cases a; cases b; rfl)
  | .ok _, .error _ => isFalse (by simp)
  | .error _, .ok _ => isFalse (by simp)

/-- The outcome of opening and reading one file.  `ioError` models an
`IOError`/`PermissionError` raised by `open()`; `decodeError` models a
`UnicodeDecodeError` raised by `f.read()`. -/
inductive ReadResult
  | ok (content : String)
  | decodeError (msg : String)
  | ioError (msg : String)
deriving DecidableEq

/-- One file of the scanned repository tree, in `os.walk` order. -/
structure RepoFile where
  path : String
  name : String
  read : ReadResult
deriving DecidableEq

/-- The repository: the ordered file list produced by walking an unchanged
tree. -/
abbrev Repo := List RepoFile

/-- Does opening this file raise (`IOError`/`PermissionError`)? -/
def isIoRead : ReadResult → Bool
  | .ioError _ => true
  | _ => false

/-- The content of a file known to have been read successfully (used only on
files produced by `ffwpFiles`, whose read is `ok` by construction). -/
def contentOf (f : RepoFile) : String :=
  match f.read with
  | .ok c => c
  | _ => ""

/-- `_find_python_files`: every file whose basename ends in `.py`. -/
def pyFiles (repo : Repo) : Repo := repo.filter (fun f => endsWithStr f.name ".py")

/-- `_find_files_with_pattern`, keeping the matching files: walks the `.py`
files, skipping both `UnicodeDecodeError` and `IOError`/`PermissionError`
(the source wraps both `open` and `read` in try blocks here). -/
def ffwpFiles (repo : Repo) (pred : String → Bool) : List RepoFile :=
  repo.filter (fun f =>
    endsWithStr f.name ".py" &&
    match f.read with
    | .ok c => pred c
    | _ => false)

/-- `_find_files_with_pattern`: the matching paths. -/
def findFilesWithPattern (repo : Repo) (pred : String → Bool) : List String :=
  (ffwpFiles repo pred).map (fun f => f.path)

/-- The path `files[0] if files else "N/A"` idiom of the source. -/
def headPath (l : List RepoFile) : String :=
  match l with
  | f :: _ => f.path
  | [] => "N/A"

/-- The detector loop shape `for file_path in files: with open(...) as f:
try: ... except UnicodeDecodeError: pass`: the `open` call stands OUTSIDE
the try block, so an `IOError`/`PermissionError` raised there propagates
(modelled as `Except.error ()`), while a decode error skips the file. -/
def perFileFindings (body : RepoFile → String → List Finding) : Repo → Except Unit (List Finding)
  | [] => .ok []
  | f :: rest =>
    match f.read with
    | .ioError _ => .error ()
    | .decodeError _ => perFileFindings body rest
    | .ok c => (perFileFindings body rest).map (fun l => body f c ++ l)

/-- The `for ...: if pred(content): flag = True; break` loop over directly
opened files (same exception behaviour as `perFileFindings`). -/
def firstMatchExc (pred : String → Bool) : Repo → Except Unit Bool
  | [] => .ok false
  | f :: rest =>
    match f.read with
    | .ioError _ => .error ()
    | .decodeError _ => firstMatchExc pred rest
    | .ok c => if pred c then .ok true else firstMatchExc pred rest

/-! ## The pattern library (each definition names its source regex) -/

/-- `r"auth|authenticate|security"` -/
def patAuthFiles (s : String) : Bool := anySub ["auth", "authenticate", "security"] s

/-- `r"@app\.(?:get|post|put|delete)"` -/
def patRoute (s : String) : Bool :=
  anySub ["@app.get", "@app.post", "@app.put", "@app.delete"] s

/-- `r"api_key|token|auth|authenticate"` -/
def patApiAuth (s : String) : Bool := anySub ["api_key", "token", "auth", "authenticate"] s

/-- `r"basic_auth|http_basic_auth"` with `re.IGNORECASE` -/
def patBasicAuth (s : String) : Bool := anySub ["basic_auth", "http_basic_auth"] (lowerStr s)

/-- `r"auth|rbac|role|permission|access"` -/
def patAuthz (s : String) : Bool := anySub ["auth", "rbac", "role", "permission", "access"] s

/-- `r"role|permission|rbac"` with `re.IGNORECASE` -/
def patRbacWord (s : String) : Bool := anySub ["role", "permission", "rbac"] (lowerStr s)

/-- `r"authorize|permission|can_|allowed_to|has_permission"` with `re.IGNORECASE` -/
def patAuthorize (s : String) : Bool :=
  anySub ["authorize", "permission", "can_", "allowed_to", "has_permission"] (lowerStr s)

/-- `r"tenant|organization|customer|client"` -/
def patTenant (s : String) : Bool := anySub ["tenant", "organization", "customer", "client"] s

/-- `r"query|filter|where|find"` -/
def patQuery (s : String) : Bool := anySub ["query", "filter", "where", "find"] s

/-- `r"tenant_id|org_id|customer_id|client_id"` -/
def patTenantId (s : String) : Bool :=
  anySub ["tenant_id", "org_id", "customer_id", "client_id"] s

/-- `r"save|store|database|db|persist"` -/
def patStorage (s : String) : Bool := anySub ["save", "store", "database", "db", "persist"] s

/-- `r"encrypt|cipher|aes|cryptography"` with `re.IGNORECASE` -/
def patEncrypt (s : String) : Bool := anySub ["encrypt", "cipher", "aes", "cryptography"] (lowerStr s)

/-- `r"https|ssl|tls|ssl_context"` with `re.IGNORECASE` -/
def patHttps (s : String) : Bool := anySub ["https", "ssl", "tls", "ssl_context"] (lowerStr s)

/-- `r"ssl_context|SSL|TLS"` (case sensitive) -/
def patSslCtx (s : String) : Bool := anySub ["ssl_context", "SSL", "TLS"] s

/-- `r"SSLv2|SSLv3|TLSv1\.0|TLSv1\.1"` -/
def patOldTls (s : String) : Bool := anySub ["SSLv2", "SSLv3", "TLSv1.0", "TLSv1.1"] s

/-- `r"email|phone|address|name|ssn|social|credit|card"` with `re.IGNORECASE` -/
def patPii (s : String) : Bool :=
  anySub ["email", "phone", "address", "name", "ssn", "social", "credit", "card"] (lowerStr s)

/-- `r"mask|redact|encrypt|hash"` with `re.IGNORECASE` -/
def patMask (s : String) : Bool := anySub ["mask", "redact", "encrypt", "hash"] (lowerStr s)

/-- `r"log\.|logger|logging"` -/
def patLog (s : String) : Bool := anySub ["log.", "logger", "logging"] s

/-- `r"password|token|key|secret"` with `re.IGNORECASE` -/
def patSecretWord (s : String) : Bool :=
  anySub ["password", "token", "key", "secret"] (lowerStr s)

/-- `r"validate|schema|pydantic|BaseModel"` -/
def patValidationLib (s : String) : Bool :=
  anySub ["validate", "schema", "pydantic", "BaseModel"] s

/-- `r"validate|check|assert|schema|pydantic"` with `re.IGNORECASE` (handler body) -/
def patBodyValidation (s : String) : Bool :=
  anySub ["validate", "check", "assert", "schema", "pydantic"] (lowerStr s)

/-- `r"validate|schema|check"` (the Bronze input-validation evidence) -/
def patValidateEvidence (s : String) : Bool := anySub ["validate", "schema", "check"] s

/-- `r"rate_limit|throttle|limiter"` -/
def patRateLimit (s : String) : Bool := anySub ["rate_limit", "throttle", "limiter"] s

/-- `r"user_id|tenant|client"` -/
def patUserScope (s : String) : Bool := anySub ["user_id", "tenant", "client"] s

/-- `r"model|llm|gpt|openai|anthropic|claude|prompt"` -/
def patModel (s : String) : Bool :=
  anySub ["model", "llm", "gpt", "openai", "anthropic", "claude", "prompt"] s

/-- `r"content|filter|moderate|inappropriate|harmful"` -/
def patContentFilter (s : String) : Bool :=
  anySub ["content", "filter", "moderate", "inappropriate", "harmful"] s

/-- `r"try|except"` -/
def patTryExcept (s : String) : Bool := anySub ["try", "except"] s

/-- `r"if\s+debug|DEBUG|development"` -/
def patDebugGuard (s : String) : Bool :=
  rsearch [.lit "if", .wsPlus, .lit "debug"] s || anySub ["DEBUG", "development"] s

/-- `r"log\.debug|logger\.debug"` -/
def patDebugLog (s : String) : Bool := anySub ["log.debug", "logger.debug"] s

/-- `r"log.*\(.*(?:password|token|key|secret)"` with `re.IGNORECASE` -/
def patLogSensitive (s : String) : Bool :=
  ["password", "token", "key", "secret"].any
    (fun w => rsearch [.lit "log", .gap, .lit "(", .gap, .lit w] (lowerStr s))

/-- `r"except.*?:\s*return\s+.*?str\(e\)"` with `re.DOTALL` -/
def patLeakExc (s : String) : Bool :=
  rsearch [.lit "except", .gap, .lit ":", .wsStar, .lit "return", .wsPlus, .gap,
    .lit "str(e)"] s

/-- `r"except\s*:"` -/
def patExceptColon (s : String) : Bool := rsearch [.lit "except", .wsStar, .lit ":"] s

/-- `r"except\s+\w+"` -/
def patExceptTyped (s : String) : Bool := rsearch [.lit "except", .wsPlus, .wordOne] s

/-- `r"prompt\s*=\s*f['\"].*\{.*\}.*['\"]"` (the braces are the literal
characters `\x7b` and `\x7d`) -/
def patPromptFstring (s : String) : Bool :=
  rsearch [.lit "prompt", .wsStar, .lit "=", .wsStar, .lit "f", .quoteTok, .gap,
    .lit "\x7b", .gap, .lit "\x7d", .gap, .quoteTok] s

/-- `r"prompt\s*\+=\s*user_input"` -/
def patPromptConcat (s : String) : Bool :=
  rsearch [.lit "prompt", .wsStar, .lit "+=", .wsStar, .lit "user_input"] s

/-- `r"system_prompt\s*=\s*.*user"` (`.` does not cross lines in the source;
the gap here may, which is adequate for the categories at stake) -/
def patSystemPrompt (s : String) : Bool :=
  rsearch [.lit "system_prompt", .wsStar, .lit "=", .wsStar, .gap, .lit "user"] s

/-- The `prompt_injection` entry of `vuln_patterns`, in source order. -/
def promptInjectionPatterns : List (String → Bool) :=
  [patPromptFstring, patPromptConcat, patSystemPrompt]

/-- `r"prompt.*user|user.*prompt"` -/
def patPromptUser (s : String) : Bool :=
  rsearch [.lit "prompt", .gap, .lit "user"] s || rsearch [.lit "user", .gap, .lit "prompt"] s

/-- `r"sanitize|clean|validate|filter"` -/
def patSanitize (s : String) : Bool := anySub ["sanitize", "clean", "validate", "filter"] s

/-- `r"prompt"` -/
def patPromptWord (s : String) : Bool := anySub ["prompt"] s

/-- `r"system|user|assistant|role"` -/
def patRoleSep (s : String) : Bool := anySub ["system", "user", "assistant", "role"] s

/-- The tail `\s*=\s*['\"][\w\-]+['\"]` shared by the `keys_and_secrets`
patterns. -/
def assignTail : List RTok := [.wsStar, .lit "=", .wsStar, .quoteTok, .wordRun, .quoteTok]

/-- `r"api[_-]?key\s*=\s*['\"][\w\-]+['\"]"` -/
def patApiKeyAssign (s : String) : Bool :=
  ["api_key", "api-key", "apikey"].any (fun n => rsearch (.lit n :: assignTail) s)

/-- `r"password\s*=\s*['\"][\w\-]+['\"]"` -/
def patPasswordAssign (s : String) : Bool := rsearch (.lit "password" :: assignTail) s

/-- `r"secret\s*=\s*['\"][\w\-]+['\"]"` -/
def patSecretAssign (s : String) : Bool := rsearch (.lit "secret" :: assignTail) s

/-- `r"token\s*=\s*['\"][\w\-]+['\"]"` -/
def patTokenAssign (s : String) : Bool := rsearch (.lit "token" :: assignTail) s

/-- `r"auth\s*=\s*['\"][\w\-]+['\"]"` -/
def patAuthAssign (s : String) : Bool := rsearch (.lit "auth" :: assignTail) s

/-- The `keys_and_secrets` entry of `vuln_patterns`, in source order. -/
def keysSecretsPatterns : List (String → Bool) :=
  [patApiKeyAssign, patPasswordAssign, patSecretAssign, patTokenAssign, patAuthAssign]

/-- `r"api_key|token|secret|password"` with `re.IGNORECASE` -/
def patSensConfig (s : String) : Bool :=
  anySub ["api_key", "token", "secret", "password"] (lowerStr s)

/-- `r"os\.environ|getenv"` -/
def patEnvVar (s : String) : Bool := anySub ["os.environ", "getenv"] s

/-- `_has_strong_auth`: some `.py` file matches one of `r"oauth"`, `r"jwt"`,
`r"token.*verify"`, `r"password.*hash"`. -/
def hasStrongAuth (repo : Repo) : Bool :=
  [fun s => anySub ["oauth"] s,
   fun s => anySub ["jwt"] s,
   fun s => rsearch [.lit "token", .gap, .lit "verify"] s,
   fun s => rsearch [.lit "password", .gap, .lit "hash"] s].any
    (fun p => !(findFilesWithPattern repo p).isEmpty)

/-- `_has_rbac`: some `.py` file matches one of `r"role.*based"`, `r"rbac"`,
`r"permission.*check"`, `r"access.*control"`. -/
def hasRbac (repo : Repo) : Bool :=
  [fun s => rsearch [.lit "role", .gap, .lit "based"] s,
   fun s => anySub ["rbac"] s,
   fun s => rsearch [.lit "permission", .gap, .lit "check"] s,
   fun s => rsearch [.lit "access", .gap, .lit "control"] s].any
    (fun p => !(findFilesWithPattern repo p).isEmpty)

/-- `_has_encryption_at_rest`: some `.py` file matches one of
`r"encrypt.*data"`, `r"data.*encrypt"`, `r"cipher"`, `r"aes"`,
`r"cryptography"`. -/
def hasEncryptionAtRest (repo : Repo) : Bool :=
  [fun s => rsearch [.lit "encrypt", .gap, .lit "data"] s,
   fun s => rsearch [.lit "data", .gap, .lit "encrypt"] s,
   fun s => anySub ["cipher"] s,
   fun s => anySub ["aes"] s,
   fun s => anySub ["cryptography"] s].any
    (fun p => !(findFilesWithPattern repo p).isEmpty)

/-! ## Score aggregation (`_calculate_scores`)

Every value reaching these computations is a multiple of 1/2 of magnitude
below 2^53, on which binary64 arithmetic is exact, so `ℚ` is a faithful
embedding here. -/

/-- The five scoring buckets of `category_scores`. -/
inductive Bucket
  | authentication | data_protection | input_validation | prompt_security | infrastructure
deriving DecidableEq

/-- The category-to-bucket mapping of `_calculate_scores` (the finding's
category is lower-cased and looked up in explicit lists; anything else maps
to no bucket). -/
def scoreCategory (cat : String) : Option Bucket :=
  let c := lowerStr cat
  if c ∈ ["authentication", "authorization", "access control"] then some .authentication
  else if c ∈ ["data persistence", "encryption", "data protection"] then some .data_protection
  else if c ∈ ["data validation", "api security", "input validation"] then some .input_validation
  else if c ∈ ["prompt injection", "content security"] then some .prompt_security
  else if c ∈ ["rate limiting", "logging", "dependencies", "configuration"] then some .infrastructure
  else none

/-- The per-severity deduction of `_calculate_scores`. -/
def penaltyQ : Severity → ℚ
  | .CRITICAL => 4
  | .HIGH => 2
  | .MEDIUM => 1
  | .LOW => 1/2
  | .INFO => 0

/-- Total deduction a findings list applies to one bucket. -/
def bucketPenalty (fs : List Finding) (b : Bucket) : ℚ :=
  (fs.map (fun f => if scoreCategory f.category = some b then penaltyQ f.severity else 0)).sum

/-- Python `round` on an exact value: round to the nearest integer, ties to
even. -/
def pyRoundQ (x : ℚ) : ℤ :=
  let f := ⌊x⌋
  let r := x - f
  if r < 1/2 then f else if 1/2 < r then f + 1 else if 2 ∣ f then f else f + 1

/-- The bucket score before clamping: `10` minus the deductions. -/
def categoryRaw (fs : List Finding) (b : Bucket) : ℚ := 10 - bucketPenalty fs b

/-- Twice the final bucket score: `round(max(1, score) * 2)` of
`_calculate_scores` (the stored score is this divided by 2). -/
def categoryHalves (fs : List Finding) (b : Bucket) : ℤ :=
  pyRoundQ (max 1 (categoryRaw fs b) * 2)

/-- The final bucket score of `_calculate_scores`:
`round(max(1, score) * 2) / 2`. -/
def calcCategoryScore (fs : List Finding) (b : Bucket) : ℚ :=
  (categoryHalves fs b : ℚ) / 2

/-! ## Exact model of binary64 arithmetic (`_calculate_overall_score`)

A double is represented by a pair `(m, e) : ℤ × ℤ` standing for `m * 2^e`.
Every double is representable this way, and each arithmetic operation
rounds its exact result to 53 significant bits, nearest, ties to even -
exactly what `fpNorm` does.  This model reproduces CPython bit for bit on
the whole in-range score domain. -/

/-- Fueled binary logarithm: with fuel at least `n`, `log2F fuel n` is
the floor of log2 of `n` (and `0` at `n = 0`). -/
def log2F : ℕ → ℕ → ℕ
  | 0, _ => 0
  | fuel+1, n => if n < 2 then 0 else log2F fuel (n / 2) + 1

/-- The bit length of `n` (for `n ≥ 1`): `2^(nbits n - 1) ≤ n < 2^(nbits n)`. -/
def nbits (n : ℕ) : ℕ := log2F n n + 1

/-- Round `m / 2^k` to the nearest integer, ties to even. -/
def fpRoundAt (m : ℤ) (k : ℕ) : ℤ :=
  let q := m / 2^k
  let r := m % 2^k
  if 2*r < 2^k then q else if (2^k : ℤ) < 2*r then q + 1 else if 2 ∣ q then q else q + 1

/-- Round a scaled integer to at most 53 significant bits (nearest, ties to
even): the rounding step of every binary64 operation. -/
def fpNorm (x : ℤ × ℤ) : ℤ × ℤ :=
  let n := x.1.natAbs
  if n < 2^53 then x
  else
    let k := nbits n - 53
    (fpRoundAt x.1 k, x.2 + (k : ℤ))

/-- Binary64 multiplication: the exact product, rounded. -/
def fpMul (x y : ℤ × ℤ) : ℤ × ℤ := fpNorm (x.1 * y.1, x.2 + y.2)

/-- Binary64 addition: operands aligned to the smaller exponent, the exact
sum rounded. -/
def fpAdd (x y : ℤ × ℤ) : ℤ × ℤ :=
  let e := min x.2 y.2
  fpNorm (x.1 * 2^(x.2 - e).toNat + y.1 * 2^(y.2 - e).toNat, e)

/-- The rational value of a scaled-integer double. -/
def fpVal (x : ℤ × ℤ) : ℚ := (x.1 : ℚ) * (2:ℚ)^x.2

/-- The exact binary64 value of the literal `0.25`. -/
def w025 : ℤ × ℤ := (1, -2)

/-- The exact binary64 value of the literal `0.2`:
`3602879701896397 * 2^-54`. -/
def w020 : ℤ × ℤ := (3602879701896397, -54)

/-- The exact binary64 value of the literal `0.15`:
`5404319552844595 * 2^-55`. -/
def w015 : ℤ × ℤ := (5404319552844595, -55)

/-- The float evaluation of
`sum(self.category_scores[cat] * weights[cat] for cat in weights)` in
`_calculate_overall_score`, where `a1 .. a5` are twice the five stored
category scores (each stored score is the exact double `aᵢ * 2^-1`).
Python's `sum` adds the terms left to right in the weight-dict order,
starting from `0` (`0 + x` is exact). -/
def fpWeightedSum (a1 a2 a3 a4 a5 : ℤ) : ℤ × ℤ :=
  fpAdd (fpAdd (fpAdd (fpAdd (fpMul (a1, -1) w025) (fpMul (a2, -1) w020))
    (fpMul (a3, -1) w020)) (fpMul (a4, -1) w020)) (fpMul (a5, -1) w015)

/-- Python `round` applied to a double: the nearest integer of its exact
value, ties to even. -/
def pyRoundFP (x : ℤ × ℤ) : ℤ :=
  if 0 ≤ x.2 then x.1 * 2^x.2.toNat else fpRoundAt x.1 (-x.2).toNat

/-- `round(overall_score * 2)` of `_calculate_overall_score` (doubling a
double only bumps its exponent and is exact). -/
def overallInt (a1 a2 a3 a4 a5 : ℤ) : ℤ :=
  pyRoundFP ((fpWeightedSum a1 a2 a3 a4 a5).1, (fpWeightedSum a1 a2 a3 a4 a5).2 + 1)

/-- `_calculate_overall_score` as a function of twice the category scores:
`round(overall_score * 2) / 2` (the final halving is exact in binary64). -/
def overallScoreFP (a1 a2 a3 a4 a5 : ℤ) : ℚ := (overallInt a1 a2 a3 a4 a5 : ℚ) / 2

/-- The mathematically exact weighted sum
`0.25*s1 + 0.2*s2 + 0.2*s3 + 0.2*s4 + 0.15*s5` of the five category scores
`sᵢ = aᵢ/2` (the number the specification's formula refers to). -/
def exactOverall (a1 a2 a3 a4 a5 : ℤ) : ℚ :=
  (a1 : ℚ)/2 * (1/4) + (a2 : ℚ)/2 * (1/5) + (a3 : ℚ)/2 * (1/5) + (a4 : ℚ)/2 * (1/5)
    + (a5 : ℚ)/2 * (3/20)

/-- Round to the nearest multiple of 0.5, ties upward (the specification's
stated rounding rule). -/
def roundHalfUpHalf (x : ℚ) : ℚ := (⌊2*x + 1/2⌋ : ℚ) / 2

/-- `_calculate_overall_score` on the scores computed from a findings list
(the five stored doubles are exactly `categoryHalves fs b * 2^-1`). -/
def overallOfFindings (fs : List Finding) : ℚ :=
  overallScoreFP (categoryHalves fs .authentication) (categoryHalves fs .data_protection)
    (categoryHalves fs .input_validation) (categoryHalves fs .prompt_security)
    (categoryHalves fs .infrastructure)

/-! ## Dependency extraction (`_extract_dependencies`) -/

/-- `content.split('\n')`. -/
def splitNl : List Char → List (List Char)
  | [] => [[]]
  | c :: rest =>
    if c = '\n' then [] :: splitNl rest
    else
      match splitNl rest with
      | [] => [[c]]
      | seg :: segs => (c :: seg) :: segs

/-- `re.split(r'==|>=|<=|>|<|~=', line)`: the alternatives are tried in the
regex order at each position. -/
def splitOnOps : List Char → List (List Char)
  | [] => [[]]
  | c :: rest =>
    if startsWithL (c :: rest) ("==".data) || startsWithL (c :: rest) (">=".data)
        || startsWithL (c :: rest) ("<=".data) then
      match rest with
      | _ :: rest2 => [] :: splitOnOps rest2
      | [] => [[], []]
    else if c = '>' || c = '<' then [] :: splitOnOps rest
    else if startsWithL (c :: rest) ("~=".data) then
      match rest with
      | _ :: rest2 => [] :: splitOnOps rest2
      | [] => [[], []]
    else
      match splitOnOps rest with
      | [] => [[c]]
      | seg :: segs => (c :: seg) :: segs

/-- `dependencies[package] = version`: Python dict insertion (an existing
key keeps its position and gets the new value). -/
def dictInsert : List (String × Option String) → String → Option String →
    List (String × Option String)
  | [], k, v => [(k, v)]
  | (k0, v0) :: rest, k, v =>
    if k0 = k then (k0, v) :: rest else (k0, v0) :: dictInsert rest k v

/-- The requirements.txt branch of `_extract_dependencies`: per stripped,
non-empty, non-comment line, split on the version operators; part 0 is the
package, part 1 (when present) the version. -/
def parseRequirements (content : String) : List (String × Option String) :=
  (splitNl content.data).foldl
    (fun deps lineRaw =>
      let line := stripL lineRaw
      if line.isEmpty then deps
      else if startsWithL line ("#".data) then deps
      else
        let parts := splitOnOps line
        match parts with
        | [] => deps
        | pkg :: restParts =>
          let ver := match restParts with
            | v :: _ => some (String.mk (stripL v))
            | [] => none
          dictInsert deps (String.mk (stripL pkg)) ver)
    []

/-- Characters strictly before the first occurrence of `pat`. -/
def takeUntilSub (pat : List Char) : List Char → List Char
  | [] => []
  | c :: rest => if startsWithL (c :: rest) pat then [] else c :: takeUntilSub pat rest

/-- Characters strictly after the first occurrence of `pat` (all of them),
or `none` when `pat` does not occur. -/
def afterSub (pat : List Char) : List Char → Option (List Char)
  | [] => if pat.isEmpty then some [] else none
  | c :: rest =>
    if startsWithL (c :: rest) pat then some ((c :: rest).drop pat.length)
    else afterSub pat rest

/-- The quoted strings found by `re.findall(r'["\'](.+?)["\']', s)`: an
opening quote of either kind, at least one character, the next quote of
either kind. -/
def quotedStringsF : ℕ → List Char → List String
  | 0, _ => []
  | _, [] => []
  | fuel+1, c :: rest =>
    if c = '"' || c = '\'' then
      let inner := rest.takeWhile (fun d => !(d = '"' || d = '\''))
      let after := rest.drop inner.length
      match after with
      | _ :: rest2 =>
        if inner.isEmpty then quotedStringsF fuel rest
        else String.mk inner :: quotedStringsF fuel rest2
      | [] => []
    else quotedStringsF fuel rest

/-- `quotedStringsF` with enough fuel (every step consumes at least one
character). -/
def quotedStrings (cs : List Char) : List String := quotedStringsF cs.length cs

/-- The setup.py branch of `_extract_dependencies`:
`install_requires\s*=\s*\[(.*?)\]` is located, the quoted strings inside it
are split on the version operators like requirements lines. -/
def parseSetupPy (content : String) : List (String × Option String) :=
  match afterSub ("install_requires".data) content.data with
  | none => []
  | some tl =>
    match (tl.dropWhile isWs) with
    | '=' :: tl2 =>
      match (tl2.dropWhile isWs) with
      | '[' :: inner =>
        let body := takeUntilSub ("]".data) inner
        (quotedStrings body).foldl
          (fun deps line =>
            let parts := splitOnOps line.data
            match parts with
            | [] => deps
            | pkg :: restParts =>
              let ver := match restParts with
                | v :: _ => some (String.mk (stripL v))
                | [] => none
              dictInsert deps (String.mk (stripL pkg)) ver)
          []
      | _ => []
    | _ => []

/-- First `\d+\.\d+\.\d+` group inside a version requirement string
(`re.search(r'[><=~]+\s*(\d+\.\d+\.\d+)', ...)` reduced to its digit
triple, as the fallback pyproject branch does). -/
def findVersionTriple : List Char → Option String
  | [] => none
  | c :: rest =>
    let cs := c :: rest
    let d1 := cs.takeWhile isDigitCh
    if d1.isEmpty then findVersionTriple rest
    else
      match cs.drop d1.length with
      | '.' :: t1 =>
        let d2 := t1.takeWhile isDigitCh
        if d2.isEmpty then findVersionTriple rest
        else
          match t1.drop d2.length with
          | '.' :: t2 =>
            let d3 := t2.takeWhile isDigitCh
            if d3.isEmpty then findVersionTriple rest
            else some (String.mk (d1 ++ '.' :: d2 ++ '.' :: d3))
          | _ => findVersionTriple rest
      | _ => findVersionTriple rest

/-- The pyproject.toml branch of `_extract_dependencies` (the regex
fallback path: quoted names inside the `dependencies` and
`dev-dependencies` bracket lists, an optional `= "..."` requirement reduced
to its first version triple; the `tomli` path only runs when that module is
importable in the scanning environment). -/
def parsePyproject (content : String) : List (String × Option String) :=
  ["dependencies", "dev-dependencies"].foldl
    (fun deps section_ =>
      match afterSub (section_.data) content.data with
      | none => deps
      | some tl =>
        match (tl.dropWhile isWs) with
        | '=' :: tl2 =>
          match (tl2.dropWhile isWs) with
          | '[' :: inner =>
            let body := takeUntilSub ("]".data) inner
            (quotedStrings body).foldl
              (fun d name =>
                match afterSub (("\"" ++ name ++ "\"").data) body with
                | some rest2 =>
                  match (rest2.dropWhile isWs) with
                  | '=' :: rest3 =>
                    match findVersionTriple (rest3.takeWhile (fun ch => ch ≠ ',')) with
                    | some v => dictInsert d name (some v)
                    | none => dictInsert d name none
                  | _ => dictInsert d name none
                | none => dictInsert d name none)
              deps
          | _ => deps
        | _ => deps)
    []

/-- Digits to a natural number (`packaging` release components). -/
def natOfDigits (cs : List Char) : ℕ :=
  cs.foldl (fun acc c => acc * 10 + (c.toNat - 48)) 0

/-- `'.'`-separated numeric components of a version string (the release
segment that `packaging.version.parse` compares for the plain numeric
versions in the baseline table). -/
def parseVer (s : String) : List ℕ :=
  (splitNl (s.data.map (fun c => if c = '.' then '\n' else c))).map natOfDigits

/-- Does a version tail make the version strictly positive? -/
def hasPosComponent (l : List ℕ) : Bool := l.any (fun x => 0 < x)

/-- Release-segment comparison of `packaging`: componentwise, missing
components count as zero. -/
def verLt : List ℕ → List ℕ → Bool
  | [], l => hasPosComponent l
  | a :: va, [] => a = 0 && verLt va []
  | a :: va, b :: vb => a < b || (a = b && verLt va vb)

/-- `known_vulnerable_deps`: the baseline table of `__init__`. -/
def knownVulnerableDeps : List (String × String) :=
  [("flask", "2.2.0"), ("django", "3.2.0"), ("fastapi", "0.80.0"),
   ("requests", "2.25.0"), ("pyyaml", "5.4"), ("cryptography", "3.3.2"),
   ("openai", "0.27.0"), ("anthropic", "0.3.0"), ("langchain", "0.0.200")]

/-! ## Route-handler extraction (`check_request_validation`) -/

/-- `re.findall(r"@app\.(?:get|post|put|delete).*?\ndef\s+([a-zA-Z0-9_]+)",
content, re.DOTALL)`: after each route decorator, the name following the
next newline-`def` is captured; scanning resumes past it. -/
def handlersAuxF : ℕ → List Char → Bool → List String
  | 0, _, _ => []
  | _, [], _ => []
  | fuel+1, c :: rest, seen =>
    if seen && startsWithL (c :: rest) ("\ndef".data) then
      match (c :: rest).drop 4 with
      | d :: t1 =>
        if isWs d then
          let t2 := t1.dropWhile isWs
          let name := t2.takeWhile isWordChar
          if name.isEmpty then handlersAuxF fuel rest true
          else String.mk name :: handlersAuxF fuel (t2.drop name.length) false
        else handlersAuxF fuel rest true
      | [] => []
    else if startsWithL (c :: rest) ("@app.get".data) || startsWithL (c :: rest) ("@app.post".data)
        || startsWithL (c :: rest) ("@app.put".data) || startsWithL (c :: rest) ("@app.delete".data) then
      handlersAuxF fuel rest true
    else handlersAuxF fuel rest seen

/-- All route-handler names of a file (`handlersAuxF` with enough fuel:
every step consumes at least one character). -/
def routeHandlers (content : String) : List String :=
  handlersAuxF content.data.length content.data false

/-- The parameter text captured by
`re.search(rf"def\s+⟨handler⟩\s*\((.*?)\)...", content, re.DOTALL)`:
the text between the parenthesis opening the first
`def <ws> handler (` occurrence and the next `)`. -/
def paramsOf (h : String) : List Char → Option (List Char)
  | [] => none
  | c :: rest =>
    (if startsWithL (c :: rest) ("def".data) then
      match (c :: rest).drop 3 with
      | d :: t1 =>
        if isWs d then
          let t2 := t1.dropWhile isWs
          if startsWithL t2 h.data then
            match (t2.drop h.length).dropWhile isWs with
            | '(' :: t4 => some (t4.takeWhile (fun x => x ≠ ')'))
            | _ => none
          else none
        else none
      | [] => none
    else none).orElse (fun _ => paramsOf h rest)

/-- The body captured by
`re.search(rf"def\s+⟨handler⟩.*?:(.*?)(?:def|\Z)", content, re.DOTALL)`:
from the first `:` after `def <ws> handler` up to the next `def` or the end
of the file. -/
def bodyOf (h : String) : List Char → Option (List Char)
  | [] => none
  | c :: rest =>
    (if startsWithL (c :: rest) ("def".data) then
      match (c :: rest).drop 3 with
      | d :: t1 =>
        if isWs d then
          let t2 := t1.dropWhile isWs
          if startsWithL t2 h.data then
            match afterSub (":".data) (t2.drop h.length) with
            | some tl => some (takeUntilSub ("def".data) tl)
            | none => none
          else none
        else none
      | [] => none
    else none).orElse (fun _ => bodyOf h rest)

/-! ## The detectors -/

/-- `check_authentication_mechanisms`. -/
def checkAuthenticationMechanisms (repo : Repo) : Except Unit (List Finding) :=
  let authFiles := findFilesWithPattern repo patAuthFiles
  let base : List Finding :=
    if authFiles.isEmpty then
      [{ severity := .HIGH, file := "N/A", category := "Authentication",
         description := "No authentication mechanisms detected for MCP endpoints",
         recommendation := "Implement proper authentication using industry-standard libraries like JWT, OAuth, or API keys" }]
    else []
  (perFileFindings (fun f c =>
      (if patRoute c && !(patApiAuth c) then
        [{ severity := .MEDIUM, file := f.path, category := "Authentication",
           description := "MCP endpoint may lack authentication checks",
           recommendation := "Add authentication middleware or decorators to protect API endpoints" }]
      else []) ++
      (if patBasicAuth c then
        [{ severity := .MEDIUM, file := f.path, category := "Authentication",
           description := "Basic HTTP authentication detected, which transmits credentials with base64 encoding only",
           recommendation := "Use more secure authentication methods like JWT or OAuth over HTTPS" }]
      else []))
    (pyFiles repo)).map (fun l => base ++ l)

/-- `check_authorization_controls` (the files it re-opens come from
`_find_files_with_pattern`, whose members were read successfully, so the
re-opening loops cannot raise in this model of an unchanged tree). -/
def checkAuthorizationControls (repo : Repo) : Except Unit (List Finding) :=
  let authFiles := ffwpFiles repo patAuthz
  let hasRbacLocal := authFiles.any (fun f => patRbacWord (contentOf f))
  let l1 : List Finding :=
    if !hasRbacLocal && !authFiles.isEmpty then
      [{ severity := .MEDIUM, file := headPath authFiles, category := "Authorization",
         description := "No role-based access control detected",
         recommendation := "Implement RBAC to provide granular control over permissions" }]
    else []
  let l2 : List Finding :=
    (ffwpFiles repo patRoute).flatMap (fun f =>
      if patRoute (contentOf f) && !(patAuthorize (contentOf f)) then
        [{ severity := .MEDIUM, file := f.path, category := "Authorization",
           description := "Endpoint may lack authorization checks",
           recommendation := "Add authorization checks to ensure users can only access resources they're permitted to" }]
      else [])
  .ok (l1 ++ l2)

/-- `check_multi_tenancy`. -/
def checkMultiTenancy (repo : Repo) : Except Unit (List Finding) :=
  .ok ((ffwpFiles repo patTenant).flatMap (fun f =>
    if patQuery (contentOf f) && !(patTenantId (contentOf f)) then
      [{ severity := .HIGH, file := f.path, category := "Multi-tenancy",
         description := "Multi-tenant system may lack proper tenant isolation in queries",
         recommendation := "Ensure all database queries filter by tenant ID to prevent data leakage between tenants" }]
    else []))

/-- `check_data_at_rest`. -/
def checkDataAtRest (repo : Repo) : Except Unit (List Finding) :=
  let storageFiles := ffwpFiles repo patStorage
  let hasEncryption := storageFiles.any (fun f => patEncrypt (contentOf f))
  .ok (if !storageFiles.isEmpty && !hasEncryption then
    [{ severity := .MEDIUM, file := headPath storageFiles, category := "Data Protection",
       description := "No encryption detected for data at rest",
       recommendation := "Implement encryption for sensitive data stored in databases or files" }]
  else [])

/-- The filename list of `check_data_in_transit`. -/
def isMainConfigName (n : String) : Bool :=
  n = "app.py" || n = "main.py" || n = "server.py" || n = "settings.py" || n = "config.py"

/-- `check_data_in_transit` (these files are opened directly, so an
`IOError` at `open` propagates). -/
def checkDataInTransit (repo : Repo) : Except Unit (List Finding) := do
  let configFiles := repo.filter (fun f => isMainConfigName f.name)
  let hasHttpsL ← firstMatchExc patHttps configFiles
  let l1 : List Finding :=
    if !configFiles.isEmpty && !hasHttpsL then
      [{ severity := .HIGH, file := headPath configFiles, category := "Data Protection",
         description := "No HTTPS/TLS implementation detected for data in transit",
         recommendation := "Configure the application to use HTTPS and redirect HTTP to HTTPS" }]
    else []
  let l2 ← perFileFindings (fun f c =>
    if patSslCtx c && patOldTls c then
      [{ severity := .HIGH, file := f.path, category := "Data Protection",
         description := "Insecure SSL/TLS protocol versions may be allowed",
         recommendation := "Use only TLSv1.2+ and disable older protocols" }]
    else []) configFiles
  pure (l1 ++ l2)

/-- `check_sensitive_data_handling`. -/
def checkSensitiveDataHandling (repo : Repo) : Except Unit (List Finding) :=
  perFileFindings (fun f c =>
    (if patPii c && !(patMask c) then
      [{ severity := .MEDIUM, file := f.path, category := "Data Protection",
         description := "Potential PII data without proper protection",
         recommendation := "Implement masking, redaction, or encryption for personally identifiable information" }]
    else []) ++
    (if patLog c && patSecretWord c then
      [{ severity := .MEDIUM, file := f.path, category := "Data Protection",
         description := "Sensitive data may be logged",
         recommendation := "Ensure sensitive data is not included in logs" }]
    else []))
    (pyFiles repo)

/-- The two per-handler findings of `check_request_validation`. -/
def handlerFindings (path : String) (content : List Char) (h : String) : List Finding :=
  (match paramsOf h content with
   | some params =>
     if !(stripL params).isEmpty && !(rsearch [.lit ":", .wsStar, .wordOne] (String.mk params)) then
       [{ severity := .LOW, file := path, category := "Input Validation",
          description := "Function '" ++ h ++ "' lacks type hints which can help with validation",
          recommendation := "Add type hints to function parameters to enforce type checking" }]
     else []
   | none => []) ++
  (match bodyOf h content with
   | some body =>
     if !(patBodyValidation (String.mk body)) then
       [{ severity := .MEDIUM, file := path, category := "Input Validation",
          description := "API handler '" ++ h ++ "' may lack input validation",
          recommendation := "Implement input validation using Pydantic models or custom validation logic" }]
     else []
   | none => [])

/-- `check_request_validation` (the unused `validation_files` binding of the
source is dropped; the files it opens come from
`_find_files_with_pattern`). -/
def checkRequestValidation (repo : Repo) : Except Unit (List Finding) :=
  .ok ((ffwpFiles repo patRoute).flatMap (fun f =>
    (routeHandlers (contentOf f)).flatMap (handlerFindings f.path (contentOf f).data)))

/-- `check_error_handling`. -/
def checkErrorHandling (repo : Repo) : Except Unit (List Finding) :=
  perFileFindings (fun f c =>
    (if patLeakExc c then
      [{ severity := .MEDIUM, file := f.path, category := "Error Handling",
         description := "Error handling may leak sensitive information through exception messages",
         recommendation := "Use generic error messages and log details instead of returning exception details" }]
    else []) ++
    (if patExceptColon c && !(patExceptTyped c) then
      [{ severity := .LOW, file := f.path, category := "Error Handling",
         description := "Overly broad exception handling (bare except clause)",
         recommendation := "Catch specific exceptions instead of using bare except clauses" }]
    else []) ++
    (if patRoute c && !(patTryExcept c) then
      [{ severity := .LOW, file := f.path, category := "Error Handling",
         description := "API endpoint lacks error handling",
         recommendation := "Implement try-except blocks to gracefully handle errors in API endpoints" }]
    else []))
    (pyFiles repo)

/-- `check_prompt_injection_safeguards`. -/
def checkPromptInjectionSafeguards (repo : Repo) : Except Unit (List Finding) :=
  let modelFiles := ffwpFiles repo patModel
  if modelFiles.isEmpty then
    .ok [{ severity := .INFO, file := "N/A", category := "Prompt Security",
           description := "No prompt handling code detected",
           recommendation := "If using LLMs, ensure proper prompt sanitization is implemented" }]
  else
    .ok (modelFiles.flatMap (fun f =>
      let c := contentOf f
      (promptInjectionPatterns.flatMap (fun p =>
        if p c then
          [{ severity := .HIGH, file := f.path, category := "Prompt Security",
             description := "Potential prompt injection vulnerability with unsanitized user input",
             recommendation := "Sanitize user input before incorporating it into prompts and use clear role separation" }]
        else [])) ++
      (if patPromptUser c && !(patSanitize c) then
        [{ severity := .MEDIUM, file := f.path, category := "Prompt Security",
           description := "User input may be used in prompts without sanitization",
           recommendation := "Implement prompt sanitization to filter out potential injection attempts" }]
      else []) ++
      (if patPromptWord c && !(patRoleSep c) then
        [{ severity := .LOW, file := f.path, category := "Prompt Security",
           description := "Prompts may not use clear role separation",
           recommendation := "Use explicit role separation (system/user/assistant) in prompts" }]
      else [])))

/-- `check_content_filtering`. -/
def checkContentFiltering (repo : Repo) : Except Unit (List Finding) :=
  .ok (if (ffwpFiles repo patContentFilter).isEmpty && !(ffwpFiles repo patModel).isEmpty then
    [{ severity := .MEDIUM, file := "N/A", category := "Content Security",
       description := "No content filtering mechanisms detected for LLM interactions",
       recommendation := "Implement content filtering to prevent harmful or inappropriate content" }]
  else [])

/-- `check_rate_limiting`. -/
def checkRateLimiting (repo : Repo) : Except Unit (List Finding) :=
  let rateLimitFiles := ffwpFiles repo patRateLimit
  if rateLimitFiles.isEmpty then
    .ok [{ severity := .MEDIUM, file := "N/A", category := "Rate Limiting",
           description := "No rate limiting mechanisms detected",
           recommendation := "Implement rate limiting to prevent abuse and control costs" }]
  else
    .ok (rateLimitFiles.flatMap (fun f =>
      if !(patUserScope (contentOf f)) then
        [{ severity := .LOW, file := f.path, category := "Rate Limiting",
           description := "Rate limiting may not be user-specific",
           recommendation := "Implement per-user rate limiting to prevent individual users from consuming all resources" }]
      else []))

/-- `check_logging_security`. -/
def checkLoggingSecurity (repo : Repo) : Except Unit (List Finding) :=
  let logFiles := ffwpFiles repo patLog
  if logFiles.isEmpty then
    .ok [{ severity := .LOW, file := "N/A", category := "Logging",
           description := "No logging mechanisms detected",
           recommendation := "Implement proper logging with appropriate security measures" }]
  else
    .ok (logFiles.flatMap (fun f =>
      let c := contentOf f
      (if patLogSensitive c then
        [{ severity := .HIGH, file := f.path, category := "Logging",
           description := "Sensitive data may be logged",
           recommendation := "Avoid logging sensitive information like passwords, tokens, or keys" }]
      else []) ++
      (if patDebugLog c && !(patDebugGuard c) then
        [{ severity := .LOW, file := f.path, category := "Logging",
           description := "Debug logging may be enabled in production",
           recommendation := "Ensure debug logging is only enabled in development environments" }]
      else [])))

/-- The manifest names walked by `check_dependency_security`. -/
def isManifestName (n : String) : Bool :=
  n = "requirements.txt" || n = "setup.py" || n = "pyproject.toml"

/-- The INFO finding appended by the `except Exception` handler of
`_extract_dependencies`. -/
def parseErrFinding (path msg : String) : Finding :=
  { severity := .INFO, file := path, category := "Dependencies",
    description := "Error parsing dependencies: " ++ msg,
    recommendation := "Ensure dependency files are in standard format" }

/-- `_extract_dependencies`: the manifest is opened and read inside a
`try: ... except Exception` that appends the INFO finding instead of
raising, so every failure mode is absorbed. -/
def extractDependencies (f : RepoFile) : List Finding × List (String × Option String) :=
  match f.read with
  | .ok c =>
    if endsWithStr f.path "requirements.txt" then ([], parseRequirements c)
    else if endsWithStr f.path "setup.py" then ([], parseSetupPy c)
    else if endsWithStr f.path "pyproject.toml" then ([], parsePyproject c)
    else ([], [])
  | .ioError msg => ([parseErrFinding f.path msg], [])
  | .decodeError msg => ([parseErrFinding f.path msg], [])

/-- The per-dependency findings of `check_dependency_security` (`if
dep_version and parse(dep_version) < parse(baseline)` then the HIGH
finding; `if not dep_version` then the MEDIUM unpinned finding). -/
def depFindings (reqPath : String) (deps : List (String × Option String)) : List Finding :=
  deps.flatMap (fun nv =>
    let hasVer : Bool := match nv.2 with
      | some v => !(v = "")
      | none => false
    (match List.lookup (lowerStr nv.1) knownVulnerableDeps, nv.2 with
     | some base, some v =>
       if hasVer && verLt (parseVer v) (parseVer base) then
         [{ severity := .HIGH, file := reqPath, category := "Dependencies",
            description := "Vulnerable dependency: " ++ nv.1 ++ "==" ++ v
              ++ " (should be >= " ++ base ++ ")",
            recommendation := "Update " ++ nv.1 ++ " to version " ++ base ++ " or newer" }]
       else []
     | _, _ => []) ++
    (if !hasVer then
      [{ severity := .MEDIUM, file := reqPath, category := "Dependencies",
         description := "Dependency " ++ nv.1
           ++ " has no version specified, which may lead to using vulnerable versions",
         recommendation := "Pin dependency versions to avoid automatic upgrades to potentially vulnerable versions" }]
    else []))

/-- All findings one manifest contributes: the extraction's own INFO
findings, then its dependency findings. -/
def perManifest (m : RepoFile) : List Finding :=
  (extractDependencies m).1 ++ depFindings m.path (extractDependencies m).2

/-- The manifest findings of a whole repository, in walk order. -/
def manifestFindings (repo : Repo) : List Finding :=
  (repo.filter (fun f => isManifestName f.name)).flatMap perManifest

/-- `check_dependency_security` (never raises: all file access happens
inside `_extract_dependencies`). -/
def checkDependencySecurity (repo : Repo) : Except Unit (List Finding) :=
  let manifests := repo.filter (fun f => isManifestName f.name)
  if manifests.isEmpty then
    .ok [{ severity := .LOW, file := "N/A", category := "Dependencies",
           description := "No requirements.txt, setup.py or pyproject.toml found for dependency analysis",
           recommendation := "Ensure the project has dependency specifications for security analysis" }]
  else
    .ok (manifests.flatMap perManifest)

/-- The config-file name test of `check_configuration_security`. -/
def isConfigName (n : String) : Bool :=
  endsWithStr n ".json" || endsWithStr n ".yaml" || endsWithStr n ".yml"
    || endsWithStr n ".toml" || endsWithStr n ".ini" || endsWithStr n ".cfg"
    || n = "config.py" || n = "settings.py"

/-- `check_configuration_security` (these files are opened directly: the
source's `except (IOError, PermissionError)` guards only the body after
`open`, so an error raised by `open` itself propagates). -/
def checkConfigurationSecurity (repo : Repo) : Except Unit (List Finding) :=
  perFileFindings (fun f c =>
    (keysSecretsPatterns.flatMap (fun p =>
      if p c then
        [{ severity := .HIGH, file := f.path, category := "Configuration",
           description := "Hardcoded sensitive data in configuration file",
           recommendation := "Use environment variables or a secure secrets manager for sensitive configuration" }]
      else [])) ++
    (if patSensConfig c && !(patEnvVar c) then
      [{ severity := .MEDIUM, file := f.path, category := "Configuration",
         description := "Sensitive configuration may not use environment variables",
         recommendation := "Use environment variables for sensitive configuration values" }]
    else []))
    (repo.filter (fun f => isConfigName f.name))

/-! ## Certification (`_determine_certification_level`) -/

/-- `len([f for f in findings if f["severity"] == sv])`. -/
def countSev (fs : List Finding) (sv : Severity) : ℕ :=
  (fs.filter (fun f => decide (f.severity = sv))).length

/-- `_has_hardcoded_secrets`: a finding whose category is exactly
`"Secrets Management"` and whose description contains `"hardcoded"`. -/
def hasHardcodedSecrets (fs : List Finding) : Bool :=
  fs.any (fun f => decide (f.category = "Secrets Management")
    && hasSubstr (lowerStr f.description) "hardcoded")

/-- `_has_proper_error_handling`: at most two findings whose category
contains `"error handling"` (case-insensitively), none of them
CRITICAL/HIGH. -/
def hasProperErrorHandling (fs : List Finding) : Bool :=
  let errorFindings := fs.filter (fun f => hasSubstr (lowerStr f.category) "error handling")
  decide (errorFindings.length ≤ 2)
    && !(errorFindings.any (fun f => decide (f.severity = .CRITICAL) || decide (f.severity = .HIGH)))

/-- `has_auth = any(self._find_files_with_pattern(r"auth|authenticate|security"))`
(the matched paths are non-empty strings, so Python truthiness of the list
is its non-emptiness). -/
def hasAuthEvidence (repo : Repo) : Bool := !(findFilesWithPattern repo patAuthFiles).isEmpty

/-- `has_input_validation = any(... r"validate|schema|check")`. -/
def hasValidationEvidence (repo : Repo) : Bool :=
  !(findFilesWithPattern repo patValidateEvidence).isEmpty

/-- `has_https = any(... r"https|ssl|tls")` (this evidence search is
case-sensitive, unlike the detector's `patHttps`). -/
def hasHttpsEvidence (repo : Repo) : Bool :=
  !(findFilesWithPattern repo (fun s => anySub ["https", "ssl", "tls"] s)).isEmpty

/-- `has_rate_limiting = any(... r"rate_limit|throttle|limiter")` (computed
by the source and never used in the decision). -/
def hasRateLimitEvidence (repo : Repo) : Bool :=
  !(findFilesWithPattern repo patRateLimit).isEmpty

/-- The `(level, details)` pair returned by
`_determine_certification_level`. -/
structure CertResult where
  level : String
  details : String
deriving DecidableEq

/-- `_determine_certification_level`: the nested Bronze/Silver/Gold ladder
over finding counts, the overall score and the evidence predicates. -/
def determineCertificationLevel (repo : Repo) (fs : List Finding) : CertResult :=
  let overall := overallOfFindings fs
  if countSev fs .CRITICAL = 0 ∧ hasAuthEvidence repo = true ∧ hasValidationEvidence repo = true
      ∧ hasHttpsEvidence repo = true ∧ hasHardcodedSecrets fs = false then
    if countSev fs .HIGH = 0 ∧ 7 ≤ overall ∧ hasStrongAuth repo = true
        ∧ hasProperErrorHandling fs = true then
      if countSev fs .MEDIUM = 0 ∧ 17/2 ≤ overall ∧ hasRbac repo = true
          ∧ hasEncryptionAtRest repo = true then
        ⟨"Gold", "Follows security best practices with no critical/high/medium vulnerabilities"⟩
      else ⟨"Silver", "Implements recommended security practices"⟩
    else ⟨"Bronze", "Meets basic security requirements"⟩
  else ⟨"None", "Does not meet minimum certification requirements"⟩

/-! ## Report assembly (`scan`) -/

/-- `f.readlines()`: the lines of a file, each keeping its newline. -/
def linesKeepNlAux (acc : List Char) : List Char → List (List Char)
  | [] => if acc.isEmpty then [] else [acc.reverse]
  | c :: rest =>
    if c = '\n' then (acc.reverse ++ ['\n']) :: linesKeepNlAux [] rest
    else linesKeepNlAux (c :: acc) rest

/-- The lines of a content string, newlines kept. -/
def linesKeepNl (s : String) : List (List Char) := linesKeepNlAux [] s.data

/-- `''.join(lines)`. -/
def joinChars (l : List (List Char)) : String := String.mk (l.foldr (· ++ ·) [])

/-- `_extract_code_snippet` (context_lines = 5): a window around the line
number when one is given and in range, otherwise the first ten lines; any
exception turns into the error string. -/
def extractCodeSnippet (repo : Repo) (path : String) (ln : Option Nat) : String :=
  match repo.find? (fun f => decide (f.path = path)) with
  | none => "Error extracting code snippet: file not found"
  | some f =>
    match f.read with
    | .ok c =>
      let lines := linesKeepNl c
      match ln with
      | some n =>
        if n ≠ 0 ∧ 1 ≤ n ∧ n ≤ lines.length then
          joinChars ((lines.drop (n - 6)).take ((min lines.length (n + 5)) - (n - 6)))
        else if lines.length ≤ 10 then joinChars lines
        else joinChars (lines.take 10)
      | none =>
        if lines.length ≤ 10 then joinChars lines
        else joinChars (lines.take 10)
    | .ioError msg => "Error extracting code snippet: " ++ msg
    | .decodeError msg => "Error extracting code snippet: " ++ msg

/-- The snippet-attachment loop of `scan`: every finding whose file is not
`"N/A"` gets a `code_snippet`. -/
def addSnippets (repo : Repo) (fs : List Finding) : List Finding :=
  fs.map (fun f =>
    if f.file = "N/A" then f
    else { f with code_snippet := some (extractCodeSnippet repo f.file f.line_number) })

/-- `metadata` of the report. -/
structure ReportMetadata where
  repository : String
  scan_date : String
  certification_level : String
  certification_details : String
deriving DecidableEq

/-- `scores` of the report. -/
structure ReportScores where
  overall : ℚ
  authentication : ℚ
  data_protection : ℚ
  input_validation : ℚ
  prompt_security : ℚ
  infrastructure : ℚ
deriving DecidableEq

/-- `findings_summary` of the report. -/
structure FindingsSummary where
  total : ℕ
  critical : ℕ
  high : ℕ
  medium : ℕ
  low : ℕ
  info : ℕ
deriving DecidableEq

/-- `_group_findings_by_severity`. -/
structure GroupedFindings where
  CRITICAL : List Finding
  HIGH : List Finding
  MEDIUM : List Finding
  LOW : List Finding
  INFO : List Finding
deriving DecidableEq

/-- `_group_findings_by_severity`: appending each finding to its severity
bucket preserves order, so each bucket is a filter. -/
def groupFindingsBySeverity (fs : List Finding) : GroupedFindings :=
  ⟨fs.filter (fun f => decide (f.severity = .CRITICAL)),
   fs.filter (fun f => decide (f.severity = .HIGH)),
   fs.filter (fun f => decide (f.severity = .MEDIUM)),
   fs.filter (fun f => decide (f.severity = .LOW)),
   fs.filter (fun f => decide (f.severity = .INFO))⟩

/-- `_identify_strengths`. -/
def identifyStrengths (repo : Repo) (fs : List Finding) : List String :=
  (if hasAuthEvidence repo
      && !(fs.any (fun f => (decide (f.severity = .CRITICAL) || decide (f.severity = .HIGH))
            && hasSubstr f.category "Authentication")) then
    ["Authentication mechanisms implemented"] else []) ++
  (if !(findFilesWithPattern repo (fun s => anySub ["https", "ssl", "tls"] s)).isEmpty then
    ["HTTPS/TLS implemented for data in transit"] else []) ++
  (if hasValidationEvidence repo then ["Input validation mechanisms present"] else []) ++
  (if hasRateLimitEvidence repo then ["Rate limiting implemented"] else []) ++
  (if !(findFilesWithPattern repo (fun s => anySub ["try", "except", "error"] s)).isEmpty
      && !(fs.any (fun f => (decide (f.severity = .CRITICAL) || decide (f.severity = .HIGH))
            && hasSubstr f.category "Error Handling")) then
    ["Error handling implemented"] else []) ++
  (if !(findFilesWithPattern repo patLog).isEmpty then
    ["Logging mechanisms implemented"] else [])

/-- The categories of a findings list in first-appearance order (the
iteration order of the `category_findings` dict of
`_identify_weaknesses`). -/
def dedupKeepOrder : List String → List String
  | [] => []
  | c :: rest => c :: dedupKeepOrder (rest.filter (fun x => !(decide (x = c))))
termination_by l => l.length
decreasing_by
  have := List.length_filter_le (fun x => !(decide (x = c))) rest
  simp
  omega

/-- `_identify_weaknesses`. -/
def identifyWeaknesses (repo : Repo) (fs : List Finding) : List String :=
  ((dedupKeepOrder (fs.map (fun f => f.category))).flatMap (fun cat =>
    let catFindings := fs.filter (fun f => decide (f.category = cat))
    let criticalHigh := catFindings.filter
      (fun f => decide (f.severity = .CRITICAL) || decide (f.severity = .HIGH))
    if 2 ≤ criticalHigh.length then ["Multiple high-severity issues in " ++ cat]
    else if 3 ≤ catFindings.length then ["Multiple issues in " ++ cat]
    else [])) ++
  (if !(hasAuthEvidence repo) then ["No authentication mechanisms detected"] else []) ++
  (if !(hasValidationEvidence repo) then ["Limited input validation"] else []) ++
  (if (findFilesWithPattern repo (fun s => anySub ["https", "ssl", "tls"] s)).isEmpty then
    ["No HTTPS/TLS implementation detected"] else []) ++
  (if !(hasRateLimitEvidence repo) then ["No rate limiting mechanisms detected"] else [])

/-- The final report dictionary of `scan`. -/
structure Report where
  metadata : ReportMetadata
  scores : ReportScores
  findings_summary : FindingsSummary
  findings : List Finding
  grouped_findings : GroupedFindings
  strengths : List String
  weaknesses : List String
deriving DecidableEq

/-- The report built by `scan` from the accumulated findings (after the
snippet pass), the repository and the scan date. -/
def buildReport (repo : Repo) (repoPath date : String) (fs : List Finding) : Report :=
  let cert := determineCertificationLevel repo fs
  { metadata := { repository := repoPath, scan_date := date,
                  certification_level := cert.level,
                  certification_details := cert.details },
    scores := { overall := overallOfFindings fs,
                authentication := calcCategoryScore fs .authentication,
                data_protection := calcCategoryScore fs .data_protection,
                input_validation := calcCategoryScore fs .input_validation,
                prompt_security := calcCategoryScore fs .prompt_security,
                infrastructure := calcCategoryScore fs .infrastructure },
    findings_summary := { total := fs.length,
                          critical := countSev fs .CRITICAL,
                          high := countSev fs .HIGH,
                          medium := countSev fs .MEDIUM,
                          low := countSev fs .LOW,
                          info := countSev fs .INFO },
    findings := fs,
    grouped_findings := groupFindingsBySeverity fs,
    strengths := identifyStrengths repo fs,
    weaknesses := identifyWeaknesses repo fs }

/-- Run a list of detectors in order, concatenating their findings; the
first uncaught exception aborts (as an uncaught exception aborts `scan`). -/
def runDetectors : List (Repo → Except Unit (List Finding)) → Repo → Except Unit (List Finding)
  | [], _ => .ok []
  | d :: ds, repo => do
    let l ← d repo
    let rest ← runDetectors ds repo
    pure (l ++ rest)

/-- The fourteen detector calls of `scan`, in source order. -/
def detectorList : List (Repo → Except Unit (List Finding)) :=
  [checkAuthenticationMechanisms, checkAuthorizationControls, checkMultiTenancy,
   checkDataAtRest, checkDataInTransit, checkSensitiveDataHandling,
   checkRequestValidation, checkErrorHandling, checkPromptInjectionSafeguards,
   checkContentFiltering, checkRateLimiting, checkLoggingSecurity,
   checkDependencySecurity, checkConfigurationSecurity]

/-- The findings accumulated by `scan` across all fourteen detectors. -/
def scanCore (repo : Repo) : Except Unit (List Finding) := runDetectors detectorList repo

/-- The findings of a scan after the snippet pass. -/
def scanFindings (repo : Repo) : Except Unit (List Finding) :=
  (scanCore repo).map (addSnippets repo)

/-- `scan`: the full pipeline, producing the report (or propagating the
first uncaught exception).  The scan date is the only input that is not a
function of the repository tree. -/
def scanModel (repo : Repo) (repoPath date : String) : Except Unit Report :=
  (scanFindings repo).map (buildReport repo repoPath date)

/-- A report with its scan date blanked (for comparing two runs). -/
def stripScanDate (r : Report) : Report :=
  { r with metadata := { r.metadata with scan_date := "" } }

/-! ## Predicate bundles and concrete instances used by the theorems -/

/-- The Silver-specific predicates of the certification ladder. -/
def silverPredicates (repo : Repo) (fs : List Finding) : Prop :=
  countSev fs .HIGH = 0 ∧ 7 ≤ overallOfFindings fs ∧ hasStrongAuth repo = true
    ∧ hasProperErrorHandling fs = true

/-- The Bronze-specific predicates of the certification ladder. -/
def bronzePredicates (repo : Repo) (fs : List Finding) : Prop :=
  countSev fs .CRITICAL = 0 ∧ hasAuthEvidence repo = true ∧ hasValidationEvidence repo = true
    ∧ hasHttpsEvidence repo = true ∧ hasHardcodedSecrets fs = false

/-- Every category string a detector of the scanner can put on a finding. -/
def detectorCategories : List String :=
  ["Authentication", "Authorization", "Multi-tenancy", "Data Protection",
   "Input Validation", "Error Handling", "Prompt Security", "Content Security",
   "Rate Limiting", "Logging", "Dependencies", "Configuration"]

/-- A repository whose single Python file carries every certification
evidence pattern (`auth`, `validate`, `https`, `oauth`, `rbac`, `aes`). -/
def evRepo : Repo :=
  [{ path := "srv/core.py", name := "core.py",
     read := .ok "auth validate https oauth rbac aes" }]

/-- A repository with one unreadable Python file (its `open()` raises
`PermissionError`). -/
def ioRepo : Repo :=
  [{ path := "locked.py", name := "locked.py", read := .ioError "Permission denied" }]

/-- A repository whose only file is an unreadable dependency manifest. -/
def manifestIoRepo : Repo :=
  [{ path := "requirements.txt", name := "requirements.txt",
     read := .ioError "Permission denied" }]

/-- A repository whose only file is a `requirements.txt` pinning
`flask==2.0.0`. -/
def c8Repo : Repo :=
  [{ path := "requirements.txt", name := "requirements.txt", read := .ok "flask==2.0.0" }]

/-- The HIGH finding `check_dependency_security` emits for
`flask==2.0.0` against the baseline `2.2.0`. -/
def c8Finding : Finding :=
  { severity := .HIGH, file := "requirements.txt", category := "Dependencies",
    description := "Vulnerable dependency: flask==2.0.0 (should be >= 2.2.0)",
    recommendation := "Update flask to version 2.2.0 or newer" }

/-- A repository whose single file interpolates user input into a prompt. -/
def promptRepo : Repo :=
  [{ path := "bot.py", name := "bot.py", read := .ok "prompt += user_input" }]

/-- The findings of a scan of the empty repository (every detector runs;
none can raise). -/
def emptyRepoFindings : List Finding :=
  match scanFindings [] with
  | .ok l => l
  | .error _ => []

/-- The findings the prompt-injection detector emits on `promptRepo`. -/
def promptScanFindings : List Finding :=
  match checkPromptInjectionSafeguards promptRepo with
  | .ok l => l
  | .error _ => []

/-- The HIGH prompt-injection finding raised on `promptRepo`. -/
def highPromptFinding : Finding :=
  { severity := .HIGH, file := "bot.py", category := "Prompt Security",
    description := "Potential prompt injection vulnerability with unsanitized user input",
    recommendation := "Sanitize user input before incorporating it into prompts and use clear role separation" }

/-! # Theorems

First the shared helper lemmas about the score pipeline, then the claim
theorems C1 - C10 with their witnesses and counterexamples. -/

/-- Every severity deduction is a natural number of half-points. -/
theorem penaltyQ_halves (sv : Severity) : ∃ k : ℕ, penaltyQ sv = (k : ℚ)/2 := by
  cases sv
  · exact ⟨8, by norm_num [penaltyQ]⟩
  · exact ⟨4, by norm_num [penaltyQ]⟩
  · exact ⟨2, by norm_num [penaltyQ]⟩
  · exact ⟨1, by norm_num [penaltyQ]⟩
  · exact ⟨0, by norm_num [penaltyQ]⟩

/-- Severity deductions are non-negative. -/
theorem penaltyQ_nonneg (sv : Severity) : 0 ≤ penaltyQ sv := by
  cases sv <;> norm_num [penaltyQ]

/-- Unfolding one finding out of a bucket's total deduction. -/
theorem bucketPenalty_cons (f : Finding) (fs : List Finding) (b : Bucket) :
    bucketPenalty (f :: fs) b =
      (if scoreCategory f.category = some b then penaltyQ f.severity else 0)
        + bucketPenalty fs b := by
  simp [bucketPenalty]

/-- A bucket's total deduction is a natural number of half-points. -/
theorem bucketPenalty_halves : ∀ (fs : List Finding) (b : Bucket),
    ∃ k : ℕ, bucketPenalty fs b = (k : ℚ)/2
  | [], b => ⟨0, by simp [bucketPenalty]⟩
  | f :: fs, b => by
    obtain ⟨k, hk⟩ := bucketPenalty_halves fs b
    by_cases h : scoreCategory f.category = some b
    · obtain ⟨j, hj⟩ := penaltyQ_halves f.severity
      refine ⟨j + k, ?_⟩
      rw [bucketPenalty_cons, if_pos h, hj, hk]
      push_cast
      ring
    · refine ⟨k, ?_⟩
      rw [bucketPenalty_cons, if_neg h, hk, zero_add]

/-- A bucket's total deduction is non-negative. -/
theorem bucketPenalty_nonneg : ∀ (fs : List Finding) (b : Bucket), 0 ≤ bucketPenalty fs b
  | [], b => by simp [bucketPenalty]
  | f :: fs, b => by
    have h1 := bucketPenalty_nonneg fs b
    rw [bucketPenalty_cons]
    have h2 : 0 ≤ (if scoreCategory f.category = some b then penaltyQ f.severity else 0) := by
      split
      · exact penaltyQ_nonneg _
      · exact le_refl 0
    linarith

/-- Python `round` is the identity on integers. -/
theorem pyRoundQ_intCast (n : ℤ) : pyRoundQ (n : ℚ) = n := by
  simp [pyRoundQ]

/-- The clamping-and-rounding pipeline of `_calculate_scores`, in
half-points: the rounding step is the identity because its input is
already an even number of quarter-points. -/
theorem categoryHalves_eq (fs : List Finding) (b : Bucket) :
    ∃ K : ℕ, bucketPenalty fs b = (K : ℚ)/2
      ∧ categoryHalves fs b = max 2 (20 - (K : ℤ)) := by
  obtain ⟨K, hK⟩ := bucketPenalty_halves fs b
  refine ⟨K, hK, ?_⟩
  unfold categoryHalves categoryRaw
  rw [hK]
  have h : max 1 (10 - (K : ℚ)/2) * 2 = ((max 2 (20 - (K : ℤ)) : ℤ) : ℚ) := by
    rw [max_mul_of_nonneg _ _ (by norm_num : (0:ℚ) ≤ 2)]
    push_cast [Int.cast_max]
    ring_nf
  rw [h, pyRoundQ_intCast]

/-- C1. For every finding set, each of the five category bucket scores is
computed by starting at 10.0, subtracting the per-severity deduction for
every mapped finding, clamping at 1.0 and rounding to the nearest 0.5
(`calcCategoryScore`); consequently the score equals the clamped value
`max 1 (10 - penalty)` exactly (the rounding is the identity here), lies
in [1.0, 10.0], and is an exact multiple of 0.5. -/
theorem c1_category_score_bounds (fs : List Finding) (b : Bucket) :
    calcCategoryScore fs b = max 1 (10 - bucketPenalty fs b)
      ∧ 1 ≤ calcCategoryScore fs b ∧ calcCategoryScore fs b ≤ 10
      ∧ ∃ k : ℕ, calcCategoryScore fs b = (k : ℚ)/2 := by
  obtain ⟨K, hK, hH⟩ := categoryHalves_eq fs b
  have hs : calcCategoryScore fs b = ((max 2 (20 - (K : ℤ)) : ℤ) : ℚ)/2 := by
    unfold calcCategoryScore
    rw [hH]
  have hmax_lb : (2 : ℤ) ≤ max 2 (20 - (K : ℤ)) := le_max_left _ _
  have hmax_ub : max 2 (20 - (K : ℤ)) ≤ 20 := by
    apply max_le
    · norm_num
    · omega
  refine ⟨?_, ?_, ?_, ?_⟩
  · rw [hs, hK]
    rw [show ((max 2 (20 - (K : ℤ)) : ℤ) : ℚ) = max 2 (20 - (K : ℚ)) by
      push_cast [Int.cast_max]; ring_nf]
    rcases le_total ((K : ℚ)) 18 with h | h
    · rw [max_eq_right (by linarith), max_eq_right (by linarith)]
      ring
    · rw [max_eq_left (by linarith), max_eq_left (by linarith)]
      norm_num
  · rw [hs]
    have h2 : (2 : ℚ) ≤ ((max 2 (20 - (K : ℤ)) : ℤ) : ℚ) := by exact_mod_cast hmax_lb
    linarith
  · rw [hs]
    have h2 : ((max 2 (20 - (K : ℤ)) : ℤ) : ℚ) ≤ (20 : ℚ) := by exact_mod_cast hmax_ub
    linarith
  · refine ⟨(max 2 (20 - (K : ℤ))).toNat, ?_⟩
    rw [hs]
    congr 1
    exact_mod_cast (Int.toNat_of_nonneg (by omega)).symm

/-- Membership in a conditional singleton list forces equality. -/
theorem mem_if_singleton {α : Type} {a x : α} {c : Prop} [Decidable c]
    (h : a ∈ (if c then [x] else [])) : a = x := by
  split at h
  · simpa using h
  · simp at h

/-- C6. Every finding emitted by `check_prompt_injection_safeguards`
carries the category label `"Prompt Security"`; that label maps to no
scoring bucket (`scoreCategory` sends it to `none`, its prompt bucket
covering only `"prompt injection"` and `"content security"`); hence adding
any such finding — in particular a HIGH prompt-injection finding — leaves
every one of the five bucket scores unchanged. -/
theorem c6_prompt_findings_unscored :
    (∀ (repo : Repo) (l : List Finding), checkPromptInjectionSafeguards repo = .ok l →
      ∀ f ∈ l, f.category = "Prompt Security")
    ∧ scoreCategory "Prompt Security" = none
    ∧ (∀ (f : Finding) (fs : List Finding) (b : Bucket), f.category = "Prompt Security" →
        calcCategoryScore (f :: fs) b = calcCategoryScore fs b) := by
  have hmap : scoreCategory "Prompt Security" = none := by decide
  refine ⟨?_, hmap, ?_⟩
  · intro repo l h f hf
    unfold checkPromptInjectionSafeguards at h
    simp only [] at h
    split at h
    · simp only [Except.ok.injEq] at h
      subst h
      simp only [List.mem_singleton] at hf
      subst hf
      rfl
    · simp only [Except.ok.injEq] at h
      subst h
      simp only [List.mem_flatMap, List.mem_append] at hf
      obtain ⟨g, _, hf⟩ := hf
      rcases hf with (hf | hf) | hf
      · obtain ⟨p, _, hf⟩ := hf
        rw [mem_if_singleton hf]
      · rw [mem_if_singleton hf]
      · rw [mem_if_singleton hf]
  · intro f fs b hcat
    unfold calcCategoryScore categoryHalves categoryRaw
    rw [bucketPenalty_cons, hcat, hmap]
    simp

/-- Witness for C6: on a concrete repository interpolating user input into
a prompt, the detector emits the HIGH `"Prompt Security"` finding, and
adding that finding to a findings list leaves the prompt-security bucket
score unchanged. -/
theorem c6_witness :
    (checkPromptInjectionSafeguards promptRepo = .ok promptScanFindings
      ∧ highPromptFinding ∈ promptScanFindings
      ∧ highPromptFinding.severity = .HIGH
      ∧ highPromptFinding.category = "Prompt Security")
    ∧ calcCategoryScore [highPromptFinding] .prompt_security
        = calcCategoryScore [] .prompt_security :=
  ⟨⟨rfl, by decide, rfl,
    c6_prompt_findings_unscored.1 promptRepo promptScanFindings rfl highPromptFinding (by decide)⟩,
   c6_prompt_findings_unscored.2.2 highPromptFinding [] .prompt_security (by decide)⟩

/-- C10. Determinism modulo the scan date: two scans of the same unchanged
repository tree differ at most in the scan-date metadata field — every
other report field (scores, findings and their order, grouping,
certification, strengths, weaknesses) coincides. -/
theorem c10_scan_deterministic_mod_date (repo : Repo) (repoPath d1 d2 : String) :
    (scanModel repo repoPath d1).map stripScanDate
      = (scanModel repo repoPath d2).map stripScanDate := by
  unfold scanModel
  cases h : scanFindings repo
  · rfl
  · simp [Except.map, stripScanDate, buildReport]

/-- C9. A dependency manifest whose open/parse raises is absorbed by the
`except Exception` of `_extract_dependencies`: `check_dependency_security`
still returns (never raises), the failing manifest contributes exactly the
INFO finding carrying the parse-error text, and the manifests before and
after it are processed unchanged. -/
theorem c9_manifest_parse_error_info (pre post : Repo) (path msg : String) :
    checkDependencySecurity
        (pre ++ ({ path := path, name := "requirements.txt", read := .ioError msg } : RepoFile)
          :: post)
      = .ok (manifestFindings pre ++ parseErrFinding path msg :: manifestFindings post)
    ∧ (parseErrFinding path msg).severity = .INFO
    ∧ (parseErrFinding path msg).description = "Error parsing dependencies: " ++ msg := by
  refine ⟨?_, rfl, rfl⟩
  have hbad : isManifestName "requirements.txt" = true := rfl
  unfold checkDependencySecurity manifestFindings
  rw [List.filter_append]
  simp only [List.filter_cons, hbad]
  simp [perManifest, extractDependencies, depFindings]

/-- C2. The certification ladder is strictly monotonic: a Gold decision
forces every Silver predicate (no HIGH findings, overall score at least
7.0, strong-auth evidence, proper error handling) and every Bronze
predicate (no CRITICAL findings, auth evidence, input-validation evidence,
TLS/HTTPS evidence, no hardcoded-secrets flag); a Silver decision forces
every Bronze predicate. -/
theorem c2_certification_monotonic (repo : Repo) (fs : List Finding) :
    ((determineCertificationLevel repo fs).level = "Gold" →
      silverPredicates repo fs ∧ bronzePredicates repo fs)
    ∧ ((determineCertificationLevel repo fs).level = "Silver" →
      bronzePredicates repo fs) := by
  unfold determineCertificationLevel silverPredicates bronzePredicates
  simp only []
  split_ifs with h1 h2 h3
  · exact ⟨fun _ => ⟨h2, h1⟩, fun hlv => by simp at hlv⟩
  · exact ⟨fun hlv => by simp at hlv, fun _ => h1⟩
  · exact ⟨fun hlv => by simp at hlv, fun hlv => by simp at hlv⟩
  · exact ⟨fun hlv => by simp at hlv, fun hlv => by simp at hlv⟩

/-- With no findings, every bucket keeps its full 20 half-points. -/
theorem categoryHalves_nil (b : Bucket) : categoryHalves [] b = 20 := by
  unfold categoryHalves categoryRaw
  have h0 : bucketPenalty [] b = 0 := by simp [bucketPenalty]
  rw [h0, show (max 1 ((10:ℚ) - 0) * 2) = ((20:ℤ) : ℚ) by norm_num]
  exact pyRoundQ_intCast 20

/-- With no findings, the overall weighted score is exactly 10.0 (all the
binary64 products and sums involved are exact). -/
theorem overallOfFindings_nil : overallOfFindings [] = 10 := by
  unfold overallOfFindings
  rw [categoryHalves_nil, categoryHalves_nil, categoryHalves_nil, categoryHalves_nil,
    categoryHalves_nil]
  have h : overallInt 20 20 20 20 20 = 20 := by decide
  unfold overallScoreFP
  rw [h]
  norm_num

/-- The evidence repository earns a Gold decision on an empty findings
list. -/
theorem certGoldEv : (determineCertificationLevel evRepo []).level = "Gold" := by
  unfold determineCertificationLevel
  simp only []
  split_ifs with h1 h2 h3
  · rfl
  · exact absurd ⟨rfl, by rw [overallOfFindings_nil]; norm_num, by decide, by decide⟩ h3
  · exact absurd ⟨rfl, by rw [overallOfFindings_nil]; norm_num, by decide, rfl⟩ h2
  · exact absurd ⟨rfl, by decide, by decide, by decide, rfl⟩ h1

/-- Witness for C2: on a concrete repository decided Gold (with an empty
findings list), all Silver and Bronze predicates hold. -/
theorem c2_witness : silverPredicates evRepo [] ∧ bronzePredicates evRepo [] :=
  (c2_certification_monotonic evRepo []).1 certGoldEv

/-- C5. An empty findings list with all of the auth, input-validation,
TLS/HTTPS, strong-auth, RBAC and encryption-at-rest evidence predicates
true and the hardcoded-secrets predicate false is decided Gold, and the
overall score is 10.0. -/
theorem c5_empty_findings_gold (repo : Repo)
    (h1 : hasAuthEvidence repo = true) (h2 : hasValidationEvidence repo = true)
    (h3 : hasHttpsEvidence repo = true) (h4 : hasStrongAuth repo = true)
    (h5 : hasRbac repo = true) (h6 : hasEncryptionAtRest repo = true)
    (h7 : hasHardcodedSecrets [] = false) :
    (determineCertificationLevel repo []).level = "Gold" ∧ overallOfFindings [] = 10 := by
  refine ⟨?_, overallOfFindings_nil⟩
  unfold determineCertificationLevel
  simp only []
  split_ifs with hB hS hG
  · rfl
  · exact absurd ⟨rfl, by rw [overallOfFindings_nil]; norm_num, h5, h6⟩ hG
  · exact absurd ⟨rfl, by rw [overallOfFindings_nil]; norm_num, h4, rfl⟩ hS
  · exact absurd ⟨rfl, h1, h2, h3, h7⟩ hB

/-- Witness for C5: the evidence repository satisfies all six evidence
hypotheses, and the conclusion follows at it. -/
theorem c5_witness :
    (hasAuthEvidence evRepo = true ∧ hasValidationEvidence evRepo = true
      ∧ hasHttpsEvidence evRepo = true ∧ hasStrongAuth evRepo = true
      ∧ hasRbac evRepo = true ∧ hasEncryptionAtRest evRepo = true
      ∧ hasHardcodedSecrets [] = false)
    ∧ ((determineCertificationLevel evRepo []).level = "Gold" ∧ overallOfFindings [] = 10) :=
  ⟨⟨by decide, by decide, by decide, by decide, by decide, by decide, rfl⟩,
   c5_empty_findings_gold evRepo (by decide) (by decide) (by decide) (by decide) (by decide)
     (by decide) rfl⟩

/-- Extracting the argument of a successful `Except.map`. -/
theorem exceptMap_ok {α β : Type} {g : α → β} {x : Except Unit α} {b : β}
    (h : x.map g = .ok b) : ∃ a, x = .ok a ∧ b = g a := by
  cases x with
  | error e => simp [Except.map] at h
  | ok a => exact ⟨a, rfl, by simpa [Except.map] using h.symm⟩

/-- Every finding produced by a `perFileFindings` loop comes from its
per-file body. -/
theorem perFileFindings_sound {P : Finding → Prop} (body : RepoFile → String → List Finding)
    (hbody : ∀ fl c f, f ∈ body fl c → P f) :
    ∀ (files : Repo) (l : List Finding), perFileFindings body files = .ok l → ∀ f ∈ l, P f
  | [], l, h => by
    simp only [perFileFindings, Except.ok.injEq] at h
    subst h
    intro f hf
    simp at hf
  | fl :: rest, l, h => by
    unfold perFileFindings at h
    cases hr : fl.read with
    | ioError m => rw [hr] at h; exact absurd h (by simp)
    | decodeError m => rw [hr] at h; exact perFileFindings_sound body hbody rest l h
    | ok c =>
      rw [hr] at h
      obtain ⟨a, ha, hb⟩ := exceptMap_ok h
      subst hb
      intro f hf
      rcases List.mem_append.mp hf with hf | hf
      · exact hbody fl c f hf
      · exact perFileFindings_sound body hbody rest a ha f hf

/-- Soundness of `runDetectors`: every accumulated finding comes from one
of the detectors in the list. -/
theorem runDetectors_sound {P : Finding → Prop} :
    ∀ (ds : List (Repo → Except Unit (List Finding))) (repo : Repo) (l : List Finding),
      (∀ d ∈ ds, ∀ l0, d repo = .ok l0 → ∀ f ∈ l0, P f) →
      runDetectors ds repo = .ok l → ∀ f ∈ l, P f
  | [], repo, l, _, h => by
    simp only [runDetectors, Except.ok.injEq] at h
    subst h
    intro f hf
    simp at hf
  | d :: ds, repo, l, hds, h => by
    unfold runDetectors at h
    cases h1 : d repo with
    | error e => rw [h1] at h; exact absurd h (by simp [Bind.bind, Except.bind])
    | ok l1 =>
      rw [h1] at h
      simp only [Bind.bind, Except.bind] at h
      cases h2 : runDetectors ds repo with
      | error e => rw [h2] at h; exact absurd h (by simp [Pure.pure, Except.pure])
      | ok l2 =>
        rw [h2] at h
        simp only [Pure.pure, Except.pure, Except.ok.injEq] at h
        subst h
        intro f hf
        rcases List.mem_append.mp hf with hf | hf
        · exact hds d (List.mem_cons_self d ds) l1 h1 f hf
        · exact runDetectors_sound ds repo l2
            (fun d0 hd0 => hds d0 (List.mem_cons_of_mem d hd0)) h2 f hf

/-- Every finding of `check_configuration_security` is labelled
`"Configuration"`. -/
theorem checkConfigurationSecurity_cat {repo : Repo} {l : List Finding}
    (h : checkConfigurationSecurity repo = .ok l) : ∀ f ∈ l, f.category = "Configuration" := by
  refine perFileFindings_sound _ ?_ _ l h
  intro fl c f hf
  rcases List.mem_append.mp hf with hf | hf
  · simp only [List.mem_flatMap] at hf
    obtain ⟨p, _, hf⟩ := hf
    rw [mem_if_singleton hf]
  · rw [mem_if_singleton hf]

/-- Every finding of `check_prompt_injection_safeguards` is labelled
`"Prompt Security"`. -/
theorem checkPromptInjection_cat {repo : Repo} {l : List Finding}
    (h : checkPromptInjectionSafeguards repo = .ok l) :
    ∀ f ∈ l, f.category = "Prompt Security" := by
  intro f hf
  unfold checkPromptInjectionSafeguards at h
  simp only [] at h
  split at h
  · simp only [Except.ok.injEq] at h
    subst h
    simp only [List.mem_singleton] at hf
    subst hf
    rfl
  · simp only [Except.ok.injEq] at h
    subst h
    simp only [List.mem_flatMap, List.mem_append] at hf
    obtain ⟨g, _, hf⟩ := hf
    rcases hf with (hf | hf) | hf
    · obtain ⟨p, _, hf⟩ := hf
      rw [mem_if_singleton hf]
    · rw [mem_if_singleton hf]
    · rw [mem_if_singleton hf]

/-- The extraction part of a manifest contributes either nothing or one
parse-error INFO finding. -/
theorem extractDependencies_fst (fl : RepoFile) :
    (extractDependencies fl).1 = []
      ∨ ∃ msg, (extractDependencies fl).1 = [parseErrFinding fl.path msg] := by
  unfold extractDependencies
  cases h : fl.read with
  | ok c =>
    simp only [h]
    left
    split
    · rfl
    · split
      · rfl
      · split
        · rfl
        · rfl
  | ioError m => simp only [h]; exact Or.inr ⟨m, rfl⟩
  | decodeError m => simp only [h]; exact Or.inr ⟨m, rfl⟩

/-- Every per-dependency finding is labelled `"Dependencies"`. -/
theorem depFindings_cat {p : String} {deps : List (String × Option String)} :
    ∀ f ∈ depFindings p deps, f.category = "Dependencies" := by
  intro f hf
  unfold depFindings at hf
  simp only [List.mem_flatMap] at hf
  obtain ⟨nv, _, hf⟩ := hf
  rcases List.mem_append.mp hf with hf | hf
  · split at hf
    · rw [mem_if_singleton hf]
    · simp at hf
  · rw [mem_if_singleton hf]

/-- Every finding a manifest contributes is labelled `"Dependencies"`. -/
theorem perManifest_cat {m : RepoFile} : ∀ f ∈ perManifest m, f.category = "Dependencies" := by
  intro f hf
  unfold perManifest at hf
  rcases List.mem_append.mp hf with hf | hf
  · rcases extractDependencies_fst m with he | ⟨msg, he⟩
    · rw [he] at hf; simp at hf
    · rw [he] at hf
      simp only [List.mem_singleton] at hf
      subst hf
      rfl
  · exact depFindings_cat f hf

/-- Every finding of `check_dependency_security` is labelled
`"Dependencies"`. -/
theorem checkDependencySecurity_cat {repo : Repo} {l : List Finding}
    (h : checkDependencySecurity repo = .ok l) : ∀ f ∈ l, f.category = "Dependencies" := by
  intro f hf
  unfold checkDependencySecurity at h
  simp only [] at h
  split at h
  · simp only [Except.ok.injEq] at h
    subst h
    simp only [List.mem_singleton] at hf
    subst hf
    rfl
  · simp only [Except.ok.injEq] at h
    subst h
    simp only [List.mem_flatMap] at hf
    obtain ⟨m, _, hf⟩ := hf
    exact perManifest_cat f hf

/-- Extracting the argument of a successful bind-then-pure. -/
theorem except_bind_pure_ok {α β : Type} {x : Except Unit α} {g : α → β} {b : β}
    (h : (x >>= fun a => pure (g a)) = .ok b) : ∃ a, x = .ok a ∧ b = g a := by
  cases x with
  | error e => simp [Bind.bind, Except.bind] at h
  | ok a =>
    refine ⟨a, rfl, ?_⟩
    simp only [Bind.bind, Except.bind, Pure.pure, Except.pure, Except.ok.injEq] at h
    exact h.symm

/-- Every finding of `check_authentication_mechanisms` is labelled
`"Authentication"`. -/
theorem checkAuthenticationMechanisms_cat {repo : Repo} {l : List Finding}
    (h : checkAuthenticationMechanisms repo = .ok l) :
    ∀ f ∈ l, f.category = "Authentication" := by
  unfold checkAuthenticationMechanisms at h
  simp only [] at h
  obtain ⟨a, ha, hb⟩ := exceptMap_ok h
  subst hb
  intro f hf
  rcases List.mem_append.mp hf with hf | hf
  · rw [mem_if_singleton hf]
  · refine perFileFindings_sound (P := fun g => g.category = "Authentication") _ ?_ _ a ha f hf
    intro fl c g hg
    rcases List.mem_append.mp hg with hg | hg
    · rw [mem_if_singleton hg]
    · rw [mem_if_singleton hg]

/-- Every finding of `check_authorization_controls` is labelled
`"Authorization"`. -/
theorem checkAuthorizationControls_cat {repo : Repo} {l : List Finding}
    (h : checkAuthorizationControls repo = .ok l) :
    ∀ f ∈ l, f.category = "Authorization" := by
  unfold checkAuthorizationControls at h
  simp only [Except.ok.injEq] at h
  subst h
  intro f hf
  rcases List.mem_append.mp hf with hf | hf
  · rw [mem_if_singleton hf]
  · simp only [List.mem_flatMap] at hf
    obtain ⟨g, _, hf⟩ := hf
    rw [mem_if_singleton hf]

/-- Every finding of `check_multi_tenancy` is labelled `"Multi-tenancy"`. -/
theorem checkMultiTenancy_cat {repo : Repo} {l : List Finding}
    (h : checkMultiTenancy repo = .ok l) : ∀ f ∈ l, f.category = "Multi-tenancy" := by
  unfold checkMultiTenancy at h
  simp only [Except.ok.injEq] at h
  subst h
  intro f hf
  simp only [List.mem_flatMap] at hf
  obtain ⟨g, _, hf⟩ := hf
  rw [mem_if_singleton hf]

/-- Every finding of `check_data_at_rest` is labelled `"Data Protection"`. -/
theorem checkDataAtRest_cat {repo : Repo} {l : List Finding}
    (h : checkDataAtRest repo = .ok l) : ∀ f ∈ l, f.category = "Data Protection" := by
  unfold checkDataAtRest at h
  simp only [Except.ok.injEq] at h
  subst h
  intro f hf
  rw [mem_if_singleton hf]

/-- Every finding of `check_data_in_transit` is labelled
`"Data Protection"`. -/
theorem checkDataInTransit_cat {repo : Repo} {l : List Finding}
    (h : checkDataInTransit repo = .ok l) : ∀ f ∈ l, f.category = "Data Protection" := by
  unfold checkDataInTransit at h
  simp only [] at h
  cases h1 : firstMatchExc patHttps (repo.filter fun f => isMainConfigName f.name) with
  | error e => rw [h1] at h; exact absurd h (by simp [Bind.bind, Except.bind])
  | ok hv =>
    rw [h1] at h
    simp only [Bind.bind, Except.bind] at h
    obtain ⟨a, ha, hb⟩ := except_bind_pure_ok h
    subst hb
    intro f hf
    rcases List.mem_append.mp hf with hf | hf
    · rw [mem_if_singleton hf]
    · refine perFileFindings_sound (P := fun g => g.category = "Data Protection") _ ?_ _ a ha f hf
      intro fl c g hg
      rw [mem_if_singleton hg]

/-- Every finding of `check_sensitive_data_handling` is labelled
`"Data Protection"`. -/
theorem checkSensitiveDataHandling_cat {repo : Repo} {l : List Finding}
    (h : checkSensitiveDataHandling repo = .ok l) :
    ∀ f ∈ l, f.category = "Data Protection" := by
  refine perFileFindings_sound (P := fun g => g.category = "Data Protection") _ ?_ _ l h
  intro fl c f hf
  rcases List.mem_append.mp hf with hf | hf
  · rw [mem_if_singleton hf]
  · rw [mem_if_singleton hf]

/-- Every per-handler finding is labelled `"Input Validation"`. -/
theorem handlerFindings_cat {p : String} {content : List Char} {hnm : String} :
    ∀ f ∈ handlerFindings p content hnm, f.category = "Input Validation" := by
  intro f hf
  unfold handlerFindings at hf
  rcases List.mem_append.mp hf with hf | hf
  · split at hf
    · rw [mem_if_singleton hf]
    · simp at hf
  · split at hf
    · rw [mem_if_singleton hf]
    · simp at hf

/-- Every finding of `check_request_validation` is labelled
`"Input Validation"`. -/
theorem checkRequestValidation_cat {repo : Repo} {l : List Finding}
    (h : checkRequestValidation repo = .ok l) : ∀ f ∈ l, f.category = "Input Validation" := by
  unfold checkRequestValidation at h
  simp only [Except.ok.injEq] at h
  subst h
  intro f hf
  simp only [List.mem_flatMap] at hf
  obtain ⟨g, _, hf⟩ := hf
  obtain ⟨hnm, _, hf⟩ := hf
  exact handlerFindings_cat f hf

/-- Every finding of `check_error_handling` is labelled
`"Error Handling"`. -/
theorem checkErrorHandling_cat {repo : Repo} {l : List Finding}
    (h : checkErrorHandling repo = .ok l) : ∀ f ∈ l, f.category = "Error Handling" := by
  refine perFileFindings_sound (P := fun g => g.category = "Error Handling") _ ?_ _ l h
  intro fl c f hf
  rcases List.mem_append.mp hf with hf | hf
  · rcases List.mem_append.mp hf with hf | hf
    · rw [mem_if_singleton hf]
    · rw [mem_if_singleton hf]
  · rw [mem_if_singleton hf]

/-- Every finding of `check_content_filtering` is labelled
`"Content Security"`. -/
theorem checkContentFiltering_cat {repo : Repo} {l : List Finding}
    (h : checkContentFiltering repo = .ok l) : ∀ f ∈ l, f.category = "Content Security" := by
  unfold checkContentFiltering at h
  simp only [Except.ok.injEq] at h
  subst h
  intro f hf
  rw [mem_if_singleton hf]

/-- Every finding of `check_rate_limiting` is labelled `"Rate Limiting"`. -/
theorem checkRateLimiting_cat {repo : Repo} {l : List Finding}
    (h : checkRateLimiting repo = .ok l) : ∀ f ∈ l, f.category = "Rate Limiting" := by
  unfold checkRateLimiting at h
  simp only [] at h
  split at h
  · simp only [Except.ok.injEq] at h
    subst h
    intro f hf
    simp only [List.mem_singleton] at hf
    subst hf
    rfl
  · simp only [Except.ok.injEq] at h
    subst h
    intro f hf
    simp only [List.mem_flatMap] at hf
    obtain ⟨g, _, hf⟩ := hf
    rw [mem_if_singleton hf]

/-- Every finding of `check_logging_security` is labelled `"Logging"`. -/
theorem checkLoggingSecurity_cat {repo : Repo} {l : List Finding}
    (h : checkLoggingSecurity repo = .ok l) : ∀ f ∈ l, f.category = "Logging" := by
  unfold checkLoggingSecurity at h
  simp only [] at h
  split at h
  · simp only [Except.ok.injEq] at h
    subst h
    intro f hf
    simp only [List.mem_singleton] at hf
    subst hf
    rfl
  · simp only [Except.ok.injEq] at h
    subst h
    intro f hf
    simp only [List.mem_flatMap] at hf
    obtain ⟨g, _, hf⟩ := hf
    rcases List.mem_append.mp hf with hf | hf
    · rw [mem_if_singleton hf]
    · rw [mem_if_singleton hf]

/-- Every finding emitted by any of the fourteen detectors carries one of
the twelve detector category labels. -/
theorem scanCore_cats {repo : Repo} {l : List Finding}
    (h : scanCore repo = .ok l) : ∀ f ∈ l, f.category ∈ detectorCategories := by
  refine runDetectors_sound detectorList repo l ?_ h
  intro d hd l0 h0 f hf
  simp only [detectorList, List.mem_cons, List.not_mem_nil, or_false] at hd
  rcases hd with rfl | rfl | rfl | rfl | rfl | rfl | rfl | rfl | rfl | rfl | rfl | rfl | rfl | rfl
  · rw [checkAuthenticationMechanisms_cat h0 f hf]; decide
  · rw [checkAuthorizationControls_cat h0 f hf]; decide
  · rw [checkMultiTenancy_cat h0 f hf]; decide
  · rw [checkDataAtRest_cat h0 f hf]; decide
  · rw [checkDataInTransit_cat h0 f hf]; decide
  · rw [checkSensitiveDataHandling_cat h0 f hf]; decide
  · rw [checkRequestValidation_cat h0 f hf]; decide
  · rw [checkErrorHandling_cat h0 f hf]; decide
  · rw [checkPromptInjection_cat h0 f hf]; decide
  · rw [checkContentFiltering_cat h0 f hf]; decide
  · rw [checkRateLimiting_cat h0 f hf]; decide
  · rw [checkLoggingSecurity_cat h0 f hf]; decide
  · rw [checkDependencySecurity_cat h0 f hf]; decide
  · rw [checkConfigurationSecurity_cat h0 f hf]; decide

/-- Snippet attachment touches neither category nor description. -/
theorem addSnippets_mem {repo : Repo} {fs : List Finding} {f : Finding}
    (hf : f ∈ addSnippets repo fs) :
    ∃ g ∈ fs, f.category = g.category ∧ f.description = g.description := by
  unfold addSnippets at hf
  simp only [List.mem_map] at hf
  obtain ⟨g, hg, hfe⟩ := hf
  subst hfe
  refine ⟨g, hg, ?_, ?_⟩ <;> split <;> rfl

/-- If no finding carries the exact category `"Secrets Management"`, the
hardcoded-secrets predicate is false. -/
theorem hasHardcodedSecrets_false {fs : List Finding}
    (h : ∀ f ∈ fs, f.category ≠ "Secrets Management") : hasHardcodedSecrets fs = false := by
  unfold hasHardcodedSecrets
  rw [List.any_eq_false]
  intro f hf
  simp [h f hf]

/-- C3. The Bronze-gate hardcoded-secrets predicate matches only findings
labelled exactly `"Secrets Management"`, while the detector that finds
hardcoded secrets in configuration files labels everything
`"Configuration"`; since no detector ever emits `"Secrets Management"`,
the predicate is false on the findings of every completed scan, so the
Bronze gate is never blocked by hardcoded-secret findings. -/
theorem c3_hardcoded_secrets_unreachable :
    (∀ (repo : Repo) (l : List Finding), checkConfigurationSecurity repo = .ok l →
      ∀ f ∈ l, f.category = "Configuration")
    ∧ (∀ (repo : Repo) (rp d : String) (r : Report), scanModel repo rp d = .ok r →
        hasHardcodedSecrets r.findings = false) := by
  refine ⟨fun repo l h => checkConfigurationSecurity_cat h, ?_⟩
  intro repo rp d r h
  unfold scanModel at h
  obtain ⟨a, ha, hr⟩ := exceptMap_ok h
  subst hr
  unfold scanFindings at ha
  obtain ⟨fs1, hfs1, hae⟩ := exceptMap_ok ha
  subst hae
  apply hasHardcodedSecrets_false
  intro f hf
  obtain ⟨g, hg, hcat, _⟩ := addSnippets_mem hf
  rw [hcat]
  have hgcat : g.category ∈ detectorCategories := scanCore_cats hfs1 g hg
  have hnone : ∀ c ∈ detectorCategories, c ≠ "Secrets Management" := by decide
  exact hnone g.category hgcat

/-- Witness for C3: a concrete configuration file with a hardcoded secret
yields a `"Configuration"` finding, and a concrete completed scan (of the
empty tree) has a false hardcoded-secrets predicate. -/
theorem c3_witness :
    (checkConfigurationSecurity
        [{ path := "settings.py", name := "settings.py",
           read := .ok "api_key = \"abc123\"" }]
      = .ok [{ severity := .HIGH, file := "settings.py", category := "Configuration",
               description := "Hardcoded sensitive data in configuration file",
               recommendation := "Use environment variables or a secure secrets manager for sensitive configuration" },
             { severity := .MEDIUM, file := "settings.py", category := "Configuration",
               description := "Sensitive configuration may not use environment variables",
               recommendation := "Use environment variables for sensitive configuration values" }])
    ∧ (scanModel [] "/repo" "2026-01-01"
        = .ok (buildReport [] "/repo" "2026-01-01" emptyRepoFindings))
    ∧ hasHardcodedSecrets (buildReport [] "/repo" "2026-01-01" emptyRepoFindings).findings
        = false := by
  refine ⟨rfl, rfl, ?_⟩
  exact (c3_hardcoded_secrets_unreachable.2 [] "/repo" "2026-01-01"
    (buildReport [] "/repo" "2026-01-01" emptyRepoFindings) rfl)

/-- A member finding's deduction bounds the bucket's total deduction from
below. -/
theorem bucketPenalty_ge_of_mem :
    ∀ {fs : List Finding} {f : Finding} {b : Bucket}, f ∈ fs →
      scoreCategory f.category = some b → penaltyQ f.severity ≤ bucketPenalty fs b := by
  intro fs
  induction fs with
  | nil => intro f b h _; simp at h
  | cons g rest ih =>
    intro f b hf hcat
    rw [bucketPenalty_cons]
    have h2 : 0 ≤ (if scoreCategory g.category = some b then penaltyQ g.severity else 0) := by
      split
      · exact penaltyQ_nonneg _
      · exact le_refl 0
    rcases List.mem_cons.mp hf with rfl | hf
    · rw [if_pos hcat]
      have := bucketPenalty_nonneg rest b
      linarith
    · have h1 := ih hf hcat
      linarith

/-- C8. A `requirements.txt` pinning `flask==2.0.0` against the `2.2.0`
baseline yields exactly one finding: a HIGH `"Dependencies"` finding whose
description names both the pinned and the baseline version; and any
findings list containing it gives the infrastructure bucket (where
dependencies map) a score strictly below 10.0. -/
theorem c8_vulnerable_flask :
    checkDependencySecurity c8Repo = .ok [c8Finding]
    ∧ c8Finding.severity = .HIGH
    ∧ c8Finding.category = "Dependencies"
    ∧ hasSubstr c8Finding.description "2.0.0" = true
    ∧ hasSubstr c8Finding.description "2.2.0" = true
    ∧ ∀ fs : List Finding, c8Finding ∈ fs → calcCategoryScore fs .infrastructure < 10 := by
  refine ⟨by decide, rfl, rfl, by decide, by decide, ?_⟩
  intro fs hfs
  have hcat : scoreCategory c8Finding.category = some .infrastructure := by decide
  have hpen := bucketPenalty_ge_of_mem hfs hcat
  have hpenHigh : penaltyQ c8Finding.severity = 2 := rfl
  rw [hpenHigh] at hpen
  obtain ⟨K, hK, hH⟩ := categoryHalves_eq fs .infrastructure
  have hK4 : (4 : ℚ) ≤ (K : ℚ) := by
    rw [hK] at hpen
    linarith
  have hK4n : (4 : ℤ) ≤ (K : ℤ) := by exact_mod_cast hK4
  have hHle : categoryHalves fs .infrastructure ≤ 16 := by
    rw [hH]
    omega
  unfold calcCategoryScore
  have hcast : ((categoryHalves fs .infrastructure : ℤ) : ℚ) ≤ 16 := by exact_mod_cast hHle
  linarith

/-- Witness for C8: the list holding exactly the flask finding scores the
infrastructure bucket below 10.0. -/
theorem c8_witness :
    c8Finding ∈ [c8Finding] ∧ calcCategoryScore [c8Finding] .infrastructure < 10 :=
  ⟨by simp, c8_vulnerable_flask.2.2.2.2.2 [c8Finding] (by simp)⟩

/-- C7 as stated fails on the code: one unreadable Python file makes
`check_authentication_mechanisms` raise at its `open()` (which stands
outside the `try` block that only catches `UnicodeDecodeError`), the
exception escapes `scan`, and no report is produced. -/
theorem c7_counterexample : scanModel ioRepo "/repo" "2026-01-01" = .error () := rfl

/-- A `perFileFindings` loop over files none of which fails at `open`
always returns. -/
theorem perFileFindings_ok (body : RepoFile → String → List Finding) :
    ∀ files : Repo, (∀ f ∈ files, isIoRead f.read = false) →
      ∃ l, perFileFindings body files = .ok l
  | [], _ => ⟨[], rfl⟩
  | fl :: rest, h => by
    have hrest := fun f hf => h f (List.mem_cons_of_mem _ hf)
    cases hr : fl.read with
    | ioError m =>
      have := h fl (List.mem_cons_self _ _)
      rw [hr] at this
      exact absurd this (by simp [isIoRead])
    | decodeError m =>
      obtain ⟨l, hl⟩ := perFileFindings_ok body rest hrest
      exact ⟨l, by unfold perFileFindings; rw [hr]; exact hl⟩
    | ok c =>
      obtain ⟨l, hl⟩ := perFileFindings_ok body rest hrest
      exact ⟨body fl c ++ l, by unfold perFileFindings; rw [hr, hl]; rfl⟩

/-- A `firstMatchExc` loop over files none of which fails at `open` always
returns. -/
theorem firstMatchExc_ok (pred : String → Bool) :
    ∀ files : Repo, (∀ f ∈ files, isIoRead f.read = false) →
      ∃ b, firstMatchExc pred files = .ok b
  | [], _ => ⟨false, rfl⟩
  | fl :: rest, h => by
    have hrest := fun f hf => h f (List.mem_cons_of_mem _ hf)
    cases hr : fl.read with
    | ioError m =>
      have := h fl (List.mem_cons_self _ _)
      rw [hr] at this
      exact absurd this (by simp [isIoRead])
    | decodeError m =>
      obtain ⟨b, hb⟩ := firstMatchExc_ok pred rest hrest
      exact ⟨b, by unfold firstMatchExc; rw [hr]; exact hb⟩
    | ok c =>
      by_cases hp : pred c = true
      · exact ⟨true, by unfold firstMatchExc; rw [hr]; simp [hp]⟩
      · obtain ⟨b, hb⟩ := firstMatchExc_ok pred rest hrest
        exact ⟨b, by unfold firstMatchExc; rw [hr]; simp [hp, hb]⟩

/-- A branch between two successful results is a successful result. -/
theorem ite_ok_exists {c : Prop} [Decidable c] (x y : List Finding) :
    ∃ l, (if c then (.ok x : Except Unit (List Finding)) else .ok y) = .ok l := by
  by_cases h : c
  · exact ⟨x, by simp [h]⟩
  · exact ⟨y, by simp [h]⟩

/-- Running a list of detectors that all return returns. -/
theorem runDetectors_ok :
    ∀ (ds : List (Repo → Except Unit (List Finding))) (repo : Repo),
      (∀ d ∈ ds, ∃ l, d repo = .ok l) → ∃ l, runDetectors ds repo = .ok l
  | [], _, _ => ⟨[], rfl⟩
  | d :: ds, repo, h => by
    obtain ⟨l1, h1⟩ := h d (List.mem_cons_self _ _)
    obtain ⟨l2, h2⟩ := runDetectors_ok ds repo (fun d0 hd0 => h d0 (List.mem_cons_of_mem _ hd0))
    refine ⟨l1 ++ l2, ?_⟩
    unfold runDetectors
    rw [h1]
    simp [Bind.bind, Except.bind, h2, Pure.pure, Except.pure]

/-- On a repository with no open-failing file, every detector returns, so
the whole scan accumulates findings without raising. -/
theorem scanCore_ok {repo : Repo} (hrepo : ∀ f ∈ repo, isIoRead f.read = false) :
    ∃ l, scanCore repo = .ok l := by
  refine runDetectors_ok detectorList repo ?_
  intro d hd
  have hpy : ∀ f ∈ pyFiles repo, isIoRead f.read = false :=
    fun f hf => hrepo f (List.mem_of_mem_filter hf)
  have hcfg : ∀ f ∈ repo.filter (fun f => isMainConfigName f.name), isIoRead f.read = false :=
    fun f hf => hrepo f (List.mem_of_mem_filter hf)
  have hconf : ∀ f ∈ repo.filter (fun f => isConfigName f.name), isIoRead f.read = false :=
    fun f hf => hrepo f (List.mem_of_mem_filter hf)
  simp only [detectorList, List.mem_cons, List.not_mem_nil, or_false] at hd
  rcases hd with rfl | rfl | rfl | rfl | rfl | rfl | rfl | rfl | rfl | rfl | rfl | rfl | rfl | rfl
  · obtain ⟨l, hl⟩ := perFileFindings_ok _ (pyFiles repo) hpy
    unfold checkAuthenticationMechanisms
    rw [hl]
    exact ⟨_, rfl⟩
  · exact ⟨_, rfl⟩
  · exact ⟨_, rfl⟩
  · exact ⟨_, rfl⟩
  · obtain ⟨b, hb⟩ := firstMatchExc_ok patHttps _ hcfg
    obtain ⟨l, hl⟩ := perFileFindings_ok
      (fun f c =>
        if patSslCtx c && patOldTls c then
          [{ severity := .HIGH, file := f.path, category := "Data Protection",
             description := "Insecure SSL/TLS protocol versions may be allowed",
             recommendation := "Use only TLSv1.2+ and disable older protocols" }]
        else []) _ hcfg
    unfold checkDataInTransit
    simp only []
    rw [hb]
    simp only [Bind.bind, Except.bind]
    rw [hl]
    exact ⟨_, rfl⟩
  · obtain ⟨l, hl⟩ := perFileFindings_ok _ (pyFiles repo) hpy
    exact ⟨l, hl⟩
  · exact ⟨_, rfl⟩
  · obtain ⟨l, hl⟩ := perFileFindings_ok _ (pyFiles repo) hpy
    exact ⟨l, hl⟩
  · unfold checkPromptInjectionSafeguards
    simp only []
    exact ite_ok_exists _ _
  · exact ⟨_, rfl⟩
  · unfold checkRateLimiting
    simp only []
    exact ite_ok_exists _ _
  · unfold checkLoggingSecurity
    simp only []
    exact ite_ok_exists _ _
  · unfold checkDependencySecurity
    simp only []
    exact ite_ok_exists _ _
  · obtain ⟨l, hl⟩ := perFileFindings_ok _ _ hconf
    exact ⟨l, hl⟩

/-- Pattern search ignores files whose open or read fails. -/
theorem ffwpFiles_drop_io (repo : Repo) (pred : String → Bool) :
    ffwpFiles (repo.filter (fun f => !(isIoRead f.read))) pred = ffwpFiles repo pred := by
  unfold ffwpFiles
  rw [List.filter_filter]
  apply List.filter_congr
  intro a _
  cases ha : a.read <;> simp [isIoRead, ha]

/-- By contrast, an `open()` failure on a dependency manifest does not
abort the scan: `_extract_dependencies` catches it (`except Exception`),
and a repository whose only walked file is an unreadable
`requirements.txt` scans to completion. -/
theorem scanModel_manifest_io_ok :
    ∃ r, scanModel manifestIoRepo "/repo" "2026-01-01" = .ok r := ⟨_, rfl⟩

/-- C7 amended: `UnicodeDecodeError` is skipped silently per file, and
`_find_files_with_pattern` also skips open/read failures (removing the
open-failing files changes none of its results); a detector that opens
files directly instead propagates an `open()` failure (the
counterexample), while `_extract_dependencies` absorbs even those into an
INFO finding. Proved here: if no walked file fails at `open`, the scan
completes and produces a report. -/
theorem c7_io_failure_behaviour :
    (∀ (repo : Repo) (pred : String → Bool),
      findFilesWithPattern (repo.filter (fun f => !(isIoRead f.read))) pred
        = findFilesWithPattern repo pred)
    ∧ (∀ (repo : Repo) (rp d : String), (∀ f ∈ repo, isIoRead f.read = false) →
        ∃ r, scanModel repo rp d = .ok r) := by
  constructor
  · intro repo pred
    unfold findFilesWithPattern
    rw [ffwpFiles_drop_io]
  · intro repo rp d hrepo
    obtain ⟨l, hl⟩ := scanCore_ok hrepo
    refine ⟨buildReport repo rp d (addSnippets repo l), ?_⟩
    unfold scanModel scanFindings
    rw [hl]
    rfl

/-- Witness for C7 (amended): a concrete repository with no open failure
scans to completion. -/
theorem c7_witness :
    (∀ f ∈ evRepo, isIoRead f.read = false)
    ∧ ∃ r, scanModel evRepo "/repo" "2026-01-01" = .ok r :=
  ⟨by decide, c7_io_failure_behaviour.2 evRepo "/repo" "2026-01-01" (by decide)⟩

/-! ## Correctness of the binary64 model (towards C4) -/

/-- `log2F` with enough fuel is the floor of the binary logarithm. -/
theorem log2F_correct : ∀ (f n : ℕ), 1 ≤ n → n < 2^f →
    2^(log2F f n) ≤ n ∧ n < 2^(log2F f n + 1) := by
  intro f
  induction f with
  | zero => intro n h1 h2; simp at h2; omega
  | succ f ih =>
    intro n h1 h2
    unfold log2F
    split_ifs with hn
    · constructor
      · simpa using h1
      · simpa using hn
    · push_neg at hn
      have hd1 : 1 ≤ n / 2 := by omega
      have hd2 : n / 2 < 2^f := by
        rw [pow_succ] at h2
        omega
      obtain ⟨hl, hr⟩ := ih (n / 2) hd1 hd2
      have e1 : (2:ℕ)^(log2F f (n / 2) + 1) = 2 * 2^(log2F f (n / 2)) := by ring
      have e2 : (2:ℕ)^(log2F f (n / 2) + 1 + 1) = 4 * 2^(log2F f (n / 2)) := by ring
      omega

/-- `nbits` brackets a positive natural between consecutive powers of
two. -/
theorem nbits_correct {n : ℕ} (h : 1 ≤ n) : 2^(nbits n - 1) ≤ n ∧ n < 2^(nbits n) := by
  unfold nbits
  have h2 := log2F_correct n n h (Nat.lt_two_pow n)
  simpa using h2

/-- `fpRoundAt` rounds to within half an ulp. -/
theorem fpRoundAt_err (m : ℤ) (k : ℕ) :
    -(2^k) ≤ 2 * (fpRoundAt m k * 2^k - m) ∧ 2 * (fpRoundAt m k * 2^k - m) ≤ 2^k := by
  have hK : (0:ℤ) < 2^k := by positivity
  have hdiv := Int.ediv_add_emod m ((2:ℤ)^k)
  have hr0 := Int.emod_nonneg m (ne_of_gt hK)
  have hr1 := Int.emod_lt_of_pos m hK
  unfold fpRoundAt
  simp only []
  split_ifs with h1 h2 h3
  · constructor <;> linarith
  · constructor <;> nlinarith
  · constructor <;> linarith
  · constructor <;> nlinarith

/-- `fpRoundAt` agrees with any integer within strictly half an ulp. -/
theorem fpRoundAt_near {m t : ℤ} {k : ℕ}
    (hl : -(2^k) < 2*m - t*2^(k+1)) (hr : 2*m - t*2^(k+1) < 2^k) :
    fpRoundAt m k = t := by
  have hK : (0:ℤ) < 2^k := by positivity
  have hdiv := Int.ediv_add_emod m ((2:ℤ)^k)
  have hr0 := Int.emod_nonneg m (ne_of_gt hK)
  have hr1 := Int.emod_lt_of_pos m hK
  have hk1 : (2:ℤ)^(k+1) = 2 * 2^k := by ring
  rw [hk1] at hl hr
  unfold fpRoundAt
  simp only []
  split_ifs with h1 h2 h3
  · -- 2r < 2^k: the quotient is the nearest integer
    by_contra hne
    rcases lt_or_gt_of_ne hne with hlt | hgt
    · have hp : 2^k * (m / 2^k + 1) ≤ 2^k * t :=
        mul_le_mul_of_nonneg_left (by omega) (le_of_lt hK)
      nlinarith
    · have hp : 2^k * (t + 1) ≤ 2^k * (m / 2^k) :=
        mul_le_mul_of_nonneg_left (by omega) (le_of_lt hK)
      nlinarith
  · -- 2^k < 2r: the quotient plus one is the nearest integer
    by_contra hne
    have hne2 : m / 2^k + 1 ≠ t := hne
    rcases lt_or_gt_of_ne hne2 with hlt | hgt
    · have hp : 2^k * (m / 2^k + 2) ≤ 2^k * t :=
        mul_le_mul_of_nonneg_left (by omega) (le_of_lt hK)
      nlinarith
    · have hp : 2^k * t ≤ 2^k * (m / 2^k) :=
        mul_le_mul_of_nonneg_left (by omega) (le_of_lt hK)
      nlinarith
  · -- an exact tie contradicts the strict hypothesis
    exfalso
    have htq : 2 * (m % 2^k) = 2^k := by omega
    rcases le_or_lt t (m / 2^k) with hle | hlt
    · have hp : 2^k * t ≤ 2^k * (m / 2^k) :=
        mul_le_mul_of_nonneg_left hle (le_of_lt hK)
      nlinarith
    · have hp : 2^k * (m / 2^k + 1) ≤ 2^k * t :=
        mul_le_mul_of_nonneg_left (by omega) (le_of_lt hK)
      nlinarith
  · exfalso
    have htq : 2 * (m % 2^k) = 2^k := by omega
    rcases le_or_lt t (m / 2^k) with hle | hlt
    · have hp : 2^k * t ≤ 2^k * (m / 2^k) :=
        mul_le_mul_of_nonneg_left hle (le_of_lt hK)
      nlinarith
    · have hp : 2^k * (m / 2^k + 1) ≤ 2^k * t :=
        mul_le_mul_of_nonneg_left (by omega) (le_of_lt hK)
      nlinarith

/-- Each binary64 rounding loses at most one part in `2^53` of the value. -/
theorem fpNorm_err (x : ℤ × ℤ) :
    |fpVal (fpNorm x) - fpVal x| ≤ |fpVal x| / 2^53 := by
  obtain ⟨m, e⟩ := x
  have hpe : (0:ℚ) < (2:ℚ)^e := zpow_pos (by norm_num) e
  unfold fpNorm
  simp only []
  split_ifs with hn
  · simp only [sub_self, abs_zero]
    positivity
  · push_neg at hn
    have h1 : 1 ≤ m.natAbs := le_trans (by norm_num) hn
    obtain ⟨hb1, hb2⟩ := nbits_correct h1
    have hB54 : 54 ≤ nbits m.natAbs := by
      by_contra hlt
      push_neg at hlt
      have hle : (2:ℕ)^(nbits m.natAbs) ≤ 2^53 :=
        Nat.pow_le_pow_right (by norm_num) (by omega)
      omega
    set k := nbits m.natAbs - 53 with hkdef
    have hkB : nbits m.natAbs - 1 = 52 + k := by omega
    rw [hkB] at hb1
    have hval : fpVal (fpRoundAt m k, e + (k:ℤ)) - fpVal (m, e)
        = ((fpRoundAt m k * 2^k - m : ℤ) : ℚ) * (2:ℚ)^e := by
      show (fpRoundAt m k : ℚ) * (2:ℚ)^(e + (k:ℤ)) - (m:ℚ) * (2:ℚ)^e = _
      rw [zpow_add₀ (by norm_num : (2:ℚ) ≠ 0) e (k:ℤ), zpow_natCast]
      push_cast
      ring
    rw [hval, abs_mul, abs_of_pos hpe]
    obtain ⟨he1, he2⟩ := fpRoundAt_err m k
    have habs : |((fpRoundAt m k * 2^k - m : ℤ) : ℚ)| ≤ (2:ℚ)^k / 2 := by
      have hz : |fpRoundAt m k * 2^k - m| * 2 ≤ 2^k := by
        rcases abs_cases (fpRoundAt m k * 2^k - m) with ⟨ha, _⟩ | ⟨ha, _⟩ <;>
          rw [ha] <;> linarith
      have hzq : |(fpRoundAt m k : ℚ) * 2^k - (m:ℚ)| * 2 ≤ (2:ℚ)^k := by exact_mod_cast hz
      push_cast
      linarith
    have hvx : |(m:ℚ) * (2:ℚ)^e| = (m.natAbs : ℚ) * (2:ℚ)^e := by
      rw [abs_mul, abs_of_pos hpe, Int.cast_natAbs, Int.cast_abs]
    show _ ≤ |(m:ℚ) * (2:ℚ)^e| / 2^53
    rw [hvx]
    have hnQ : (2:ℚ)^(52 + k) ≤ (m.natAbs : ℚ) := by exact_mod_cast hb1
    have hsplit : (2:ℚ)^(52 + k) = 2^52 * 2^k := by rw [pow_add]
    have hstep1 : |((fpRoundAt m k * 2^k - m : ℤ) : ℚ)| * (2:ℚ)^e ≤ ((2:ℚ)^k / 2) * (2:ℚ)^e :=
      mul_le_mul_of_nonneg_right habs (le_of_lt hpe)
    refine le_trans hstep1 ?_
    rw [div_mul_eq_mul_div, div_le_div_iff₀ (by norm_num) (by norm_num : (0:ℚ) < 2^53)]
    have hmul : (2:ℚ)^(52+k) * (2:ℚ)^e ≤ (m.natAbs : ℚ) * (2:ℚ)^e :=
      mul_le_mul_of_nonneg_right hnQ (le_of_lt hpe)
    rw [hsplit] at hmul
    have h53 : (2:ℚ)^53 = 2^52 * 2 := by ring
    nlinarith [pow_pos (show (0:ℚ) < 2 by norm_num) 52]

/-- Binary64 multiplication is the exact product up to one part in
`2^53`. -/
theorem fpMul_err (x y : ℤ × ℤ) :
    |fpVal (fpMul x y) - fpVal x * fpVal y| ≤ |fpVal x * fpVal y| / 2^53 := by
  have hv : fpVal (x.1 * y.1, x.2 + y.2) = fpVal x * fpVal y := by
    show ((x.1 * y.1 : ℤ) : ℚ) * (2:ℚ)^(x.2 + y.2) = _
    rw [zpow_add₀ (by norm_num : (2:ℚ) ≠ 0)]
    push_cast
    show _ = (x.1:ℚ) * (2:ℚ)^x.2 * ((y.1:ℚ) * (2:ℚ)^y.2)
    ring
  unfold fpMul
  rw [← hv]
  exact fpNorm_err _

/-- Binary64 addition is the exact sum up to one part in `2^53`. -/
theorem fpAdd_err (x y : ℤ × ℤ) :
    |fpVal (fpAdd x y) - (fpVal x + fpVal y)| ≤ |fpVal x + fpVal y| / 2^53 := by
  have hx : (0:ℤ) ≤ x.2 - min x.2 y.2 := sub_nonneg.mpr (min_le_left _ _)
  have hy : (0:ℤ) ≤ y.2 - min x.2 y.2 := sub_nonneg.mpr (min_le_right _ _)
  have hv : fpVal (x.1 * 2^(x.2 - min x.2 y.2).toNat + y.1 * 2^(y.2 - min x.2 y.2).toNat,
      min x.2 y.2) = fpVal x + fpVal y := by
    show ((x.1 * 2^(x.2 - min x.2 y.2).toNat + y.1 * 2^(y.2 - min x.2 y.2).toNat : ℤ) : ℚ)
        * (2:ℚ)^(min x.2 y.2) = _
    push_cast
    rw [← zpow_natCast (2:ℚ) (x.2 - min x.2 y.2).toNat,
      ← zpow_natCast (2:ℚ) (y.2 - min x.2 y.2).toNat,
      Int.toNat_of_nonneg hx, Int.toNat_of_nonneg hy]
    rw [add_mul, mul_assoc, mul_assoc,
      ← zpow_add₀ (by norm_num : (2:ℚ) ≠ 0), ← zpow_add₀ (by norm_num : (2:ℚ) ≠ 0)]
    rw [sub_add_cancel, sub_add_cancel]
    rfl
  unfold fpAdd
  simp only []
  rw [← hv]
  exact fpNorm_err _

/-- Python `round` of a double agrees with any integer within strictly
one half. -/
theorem pyRoundFP_near (x : ℤ × ℤ) (t : ℤ) (h : |fpVal x - t| < 1/2) : pyRoundFP x = t := by
  obtain ⟨m, e⟩ := x
  unfold pyRoundFP
  simp only []
  split_ifs with he
  · have hv : fpVal (m, e) = ((m * 2^e.toNat : ℤ) : ℚ) := by
      show (m:ℚ) * (2:ℚ)^e = _
      push_cast
      rw [← zpow_natCast (2:ℚ) e.toNat, Int.toNat_of_nonneg he]
    rw [hv, ← Int.cast_sub, ← Int.cast_abs] at h
    have h3 : |m * 2^e.toNat - t| < 1 := by
      have hq : ((|m * 2^e.toNat - t| : ℤ) : ℚ) < 1 := lt_trans h (by norm_num)
      exact_mod_cast hq
    rw [abs_lt] at h3
    omega
  · push_neg at he
    set k := (-e).toNat with hk
    have hek : e = -(k:ℤ) := by omega
    have hKQ : (0:ℚ) < (2:ℚ)^k := by positivity
    have hv : fpVal (m, e) = (m:ℚ) / (2:ℚ)^k := by
      show (m:ℚ) * (2:ℚ)^e = _
      rw [hek, zpow_neg, zpow_natCast, div_eq_mul_inv]
    rw [hv, abs_lt] at h
    obtain ⟨hl, hr⟩ := h
    have hb1 : -((2:ℚ)^k) < 2*(m:ℚ) - (t:ℚ)*2^(k+1) := by
      have h' := mul_lt_mul_of_pos_right hl (show (0:ℚ) < 2 * 2^k by positivity)
      calc -((2:ℚ)^k) = (-(1/2)) * (2*2^k) := by ring
      _ < ((m:ℚ)/2^k - t) * (2*2^k) := h'
      _ = 2*(m:ℚ) - (t:ℚ)*2^(k+1) := by field_simp; ring
    have hb2 : 2*(m:ℚ) - (t:ℚ)*2^(k+1) < (2:ℚ)^k := by
      have h' := mul_lt_mul_of_pos_right hr (show (0:ℚ) < 2 * 2^k by positivity)
      calc 2*(m:ℚ) - (t:ℚ)*2^(k+1) = ((m:ℚ)/2^k - t) * (2*2^k) := by field_simp; ring
      _ < (1/2) * (2*2^k) := h'
      _ = (2:ℚ)^k := by ring
    have hz1 : -((2:ℤ)^k) < 2*m - t*2^(k+1) := by exact_mod_cast hb1
    have hz2 : 2*m - t*2^(k+1) < (2:ℤ)^k := by exact_mod_cast hb2
    exact fpRoundAt_near hz1 hz2

/-- The exact value of the binary64 literal `0.25`. -/
theorem fpVal_w025 : fpVal w025 = 1/4 := by
  simp only [fpVal, w025]
  norm_num

/-- The exact value of the binary64 literal `0.2`: a hair above `1/5`. -/
theorem fpVal_w020 : fpVal w020 = 3602879701896397/2^54 := by
  simp only [fpVal, w020]
  norm_num

/-- The exact value of the binary64 literal `0.15`: a hair below `3/20`. -/
theorem fpVal_w015 : fpVal w015 = 5404319552844595/2^55 := by
  simp only [fpVal, w015]
  norm_num

/-- A stored category score is the exact double `a * 2^-1`. -/
theorem fpVal_half (a : ℤ) : fpVal (a, -1) = (a:ℚ)/2 := by
  simp only [fpVal]
  rw [zpow_neg_one]
  ring

/-- Bumping the exponent doubles the value exactly (`overall_score * 2`
loses nothing). -/
theorem fpVal_bump (x : ℤ × ℤ) : fpVal (x.1, x.2 + 1) = 2 * fpVal x := by
  simp only [fpVal]
  rw [zpow_add_one₀ (by norm_num : (2:ℚ) ≠ 0)]
  ring

set_option maxHeartbeats 2000000 in
/-- C4: `_calculate_overall_score` returns the fixed-weight sum of the five
category scores rounded to the nearest 0.5 whenever that sum is not an
exact tie between two multiples of 0.5 — for doubled in-range scores
`a1 .. a5` the non-tie condition is `(5*a1+4*a2+4*a3+4*a4+3*a5) % 20 ≠ 10`.
Off ties the binary64 evaluation lands strictly within half a unit of the
true doubled sum, so Python's `round` cannot diverge from the exact
rounding; at exact ties the spec's round-half-up rule fails (see the
counterexample at scores `(1, 1, 1, 1.5, 2)`). -/
theorem c4_overall_weighted_nontie (a1 a2 a3 a4 a5 : ℤ)
    (hl1 : 2 ≤ a1) (hu1 : a1 ≤ 20) (hl2 : 2 ≤ a2) (hu2 : a2 ≤ 20)
    (hl3 : 2 ≤ a3) (hu3 : a3 ≤ 20) (hl4 : 2 ≤ a4) (hu4 : a4 ≤ 20)
    (hl5 : 2 ≤ a5) (hu5 : a5 ≤ 20)
    (htie : (5*a1 + 4*a2 + 4*a3 + 4*a4 + 3*a5) % 20 ≠ 10) :
    overallScoreFP a1 a2 a3 a4 a5 = roundHalfUpHalf (exactOverall a1 a2 a3 a4 a5) := by
  have q1l : (2:ℚ) ≤ (a1:ℚ) := by exact_mod_cast hl1
  have q1u : (a1:ℚ) ≤ 20 := by exact_mod_cast hu1
  have q2l : (2:ℚ) ≤ (a2:ℚ) := by exact_mod_cast hl2
  have q2u : (a2:ℚ) ≤ 20 := by exact_mod_cast hu2
  have q3l : (2:ℚ) ≤ (a3:ℚ) := by exact_mod_cast hl3
  have q3u : (a3:ℚ) ≤ 20 := by exact_mod_cast hu3
  have q4l : (2:ℚ) ≤ (a4:ℚ) := by exact_mod_cast hl4
  have q4u : (a4:ℚ) ≤ 20 := by exact_mod_cast hu4
  have q5l : (2:ℚ) ≤ (a5:ℚ) := by exact_mod_cast hl5
  have q5u : (a5:ℚ) ≤ 20 := by exact_mod_cast hu5
  set N : ℤ := 5*a1 + 4*a2 + 4*a3 + 4*a4 + 3*a5 with hN
  set t : ℤ := (N + 10) / 20 with ht
  set p1 : ℤ × ℤ := fpMul (a1, -1) w025 with hp1
  set p2 : ℤ × ℤ := fpMul (a2, -1) w020 with hp2
  set p3 : ℤ × ℤ := fpMul (a3, -1) w020 with hp3
  set p4 : ℤ × ℤ := fpMul (a4, -1) w020 with hp4
  set p5 : ℤ × ℤ := fpMul (a5, -1) w015 with hp5
  set s1 : ℤ × ℤ := fpAdd p1 p2 with hs1
  set s2 : ℤ × ℤ := fpAdd s1 p3 with hs2
  set s3 : ℤ × ℤ := fpAdd s2 p4 with hs3
  set sw : ℤ × ℤ := fpAdd s3 p5 with hsw
  have hfold : fpWeightedSum a1 a2 a3 a4 a5 = sw := by
    unfold fpWeightedSum
    rw [hsw, hs3, hs2, hs1, hp1, hp2, hp3, hp4, hp5]
  -- raw per-operation error facts, then forget the unfoldable values
  have hm1 := fpMul_err (a1, -1) w025
  rw [← hp1, fpVal_half, fpVal_w025] at hm1
  have hm2 := fpMul_err (a2, -1) w020
  rw [← hp2, fpVal_half, fpVal_w020] at hm2
  have hm3 := fpMul_err (a3, -1) w020
  rw [← hp3, fpVal_half, fpVal_w020] at hm3
  have hm4 := fpMul_err (a4, -1) w020
  rw [← hp4, fpVal_half, fpVal_w020] at hm4
  have hm5 := fpMul_err (a5, -1) w015
  rw [← hp5, fpVal_half, fpVal_w015] at hm5
  have hadd1 := fpAdd_err p1 p2
  rw [← hs1] at hadd1
  have hadd2 := fpAdd_err s1 p3
  rw [← hs2] at hadd2
  have hadd3 := fpAdd_err s2 p4
  rw [← hs3] at hadd3
  have hadd4 := fpAdd_err s3 p5
  rw [← hsw] at hadd4
  clear_value p1 p2 p3 p4 p5 s1 s2 s3 sw
  clear hp1 hp2 hp3 hp4 hp5 hs1 hs2 hs3 hsw
  -- first weighted term: exact weight 1/4
  have herr1 : |fpVal p1 - (a1:ℚ)/8| ≤ 1/2^48 := by
    have habs : |(a1:ℚ)/2 * (1/4)| ≤ 3 := by
      rw [abs_of_nonneg (mul_nonneg (by linarith) (by norm_num))]
      linarith
    have hds : (a1:ℚ)/2 * (1/4) = (a1:ℚ)/8 := by ring
    rw [hds] at hm1 habs
    linarith
  -- three terms with the slightly-high weight 0.2
  have herr2 : |fpVal p2 - (a2:ℚ)/10| ≤ 1/2^48 := by
    have habs : |(a2:ℚ)/2 * (3602879701896397/2^54)| ≤ 3 := by
      rw [abs_of_nonneg (mul_nonneg (by linarith) (by norm_num))]
      linarith
    have h2 : |fpVal p2 - (a2:ℚ)/2 * (3602879701896397/2^54)| ≤ 3/2^53 := by linarith
    have hd : |(a2:ℚ)/2 * (3602879701896397/2^54) - (a2:ℚ)/10| ≤ 1/2^52 := by
      have he : (a2:ℚ)/2 * (3602879701896397/2^54) - (a2:ℚ)/10 = (a2:ℚ)/(10 * 2^54) := by
        ring
      rw [he, abs_of_nonneg (by linarith)]
      linarith
    have htri := abs_sub_le (fpVal p2) ((a2:ℚ)/2 * (3602879701896397/2^54)) ((a2:ℚ)/10)
    linarith
  have herr3 : |fpVal p3 - (a3:ℚ)/10| ≤ 1/2^48 := by
    have habs : |(a3:ℚ)/2 * (3602879701896397/2^54)| ≤ 3 := by
      rw [abs_of_nonneg (mul_nonneg (by linarith) (by norm_num))]
      linarith
    have h2 : |fpVal p3 - (a3:ℚ)/2 * (3602879701896397/2^54)| ≤ 3/2^53 := by linarith
    have hd : |(a3:ℚ)/2 * (3602879701896397/2^54) - (a3:ℚ)/10| ≤ 1/2^52 := by
      have he : (a3:ℚ)/2 * (3602879701896397/2^54) - (a3:ℚ)/10 = (a3:ℚ)/(10 * 2^54) := by
        ring
      rw [he, abs_of_nonneg (by linarith)]
      linarith
    have htri := abs_sub_le (fpVal p3) ((a3:ℚ)/2 * (3602879701896397/2^54)) ((a3:ℚ)/10)
    linarith
  have herr4 : |fpVal p4 - (a4:ℚ)/10| ≤ 1/2^48 := by
    have habs : |(a4:ℚ)/2 * (3602879701896397/2^54)| ≤ 3 := by
      rw [abs_of_nonneg (mul_nonneg (by linarith) (by norm_num))]
      linarith
    have h2 : |fpVal p4 - (a4:ℚ)/2 * (3602879701896397/2^54)| ≤ 3/2^53 := by linarith
    have hd : |(a4:ℚ)/2 * (3602879701896397/2^54) - (a4:ℚ)/10| ≤ 1/2^52 := by
      have he : (a4:ℚ)/2 * (3602879701896397/2^54) - (a4:ℚ)/10 = (a4:ℚ)/(10 * 2^54) := by
        ring
      rw [he, abs_of_nonneg (by linarith)]
      linarith
    have htri := abs_sub_le (fpVal p4) ((a4:ℚ)/2 * (3602879701896397/2^54)) ((a4:ℚ)/10)
    linarith
  -- last term: the slightly-low weight 0.15
  have herr5 : |fpVal p5 - 3*(a5:ℚ)/40| ≤ 1/2^48 := by
    have habs : |(a5:ℚ)/2 * (5404319552844595/2^55)| ≤ 3 := by
      rw [abs_of_nonneg (mul_nonneg (by linarith) (by norm_num))]
      linarith
    have h2 : |fpVal p5 - (a5:ℚ)/2 * (5404319552844595/2^55)| ≤ 3/2^53 := by linarith
    have hd : |(a5:ℚ)/2 * (5404319552844595/2^55) - 3*(a5:ℚ)/40| ≤ 1/2^52 := by
      have he : (a5:ℚ)/2 * (5404319552844595/2^55) - 3*(a5:ℚ)/40
          = -((a5:ℚ)/(10 * 2^55)) := by ring
      rw [he, abs_neg, abs_of_nonneg (by linarith)]
      linarith
    have htri := abs_sub_le (fpVal p5) ((a5:ℚ)/2 * (5404319552844595/2^55)) (3*(a5:ℚ)/40)
    linarith
  have hb1 := abs_le.mp herr1
  have hb2 := abs_le.mp herr2
  have hb3 := abs_le.mp herr3
  have hb4 := abs_le.mp herr4
  have hb5 := abs_le.mp herr5
  -- left-to-right summation, one rounding per addition
  have hab1 : |fpVal p1 + fpVal p2| ≤ 6 := by
    rw [abs_le]
    constructor <;> linarith [hb1.1, hb1.2, hb2.1, hb2.2]
  have hs1err : |fpVal s1 - ((a1:ℚ)/8 + (a2:ℚ)/10)| ≤ 1/2^46 := by
    have htri := abs_sub_le (fpVal s1) (fpVal p1 + fpVal p2) ((a1:ℚ)/8 + (a2:ℚ)/10)
    have hsplit : fpVal p1 + fpVal p2 - ((a1:ℚ)/8 + (a2:ℚ)/10)
        = (fpVal p1 - (a1:ℚ)/8) + (fpVal p2 - (a2:ℚ)/10) := by ring
    rw [hsplit] at htri
    have htri2 := abs_add (fpVal p1 - (a1:ℚ)/8) (fpVal p2 - (a2:ℚ)/10)
    linarith
  have hc1 := abs_le.mp hs1err
  have hab2 : |fpVal s1 + fpVal p3| ≤ 9 := by
    rw [abs_le]
    constructor <;> linarith [hc1.1, hc1.2, hb3.1, hb3.2]
  have hs2err : |fpVal s2 - ((a1:ℚ)/8 + (a2:ℚ)/10 + (a3:ℚ)/10)| ≤ 1/2^45 := by
    have htri := abs_sub_le (fpVal s2) (fpVal s1 + fpVal p3)
      ((a1:ℚ)/8 + (a2:ℚ)/10 + (a3:ℚ)/10)
    have hsplit : fpVal s1 + fpVal p3 - ((a1:ℚ)/8 + (a2:ℚ)/10 + (a3:ℚ)/10)
        = (fpVal s1 - ((a1:ℚ)/8 + (a2:ℚ)/10)) + (fpVal p3 - (a3:ℚ)/10) := by ring
    rw [hsplit] at htri
    have htri2 := abs_add (fpVal s1 - ((a1:ℚ)/8 + (a2:ℚ)/10)) (fpVal p3 - (a3:ℚ)/10)
    linarith
  have hc2 := abs_le.mp hs2err
  have hab3 : |fpVal s2 + fpVal p4| ≤ 12 := by
    rw [abs_le]
    constructor <;> linarith [hc2.1, hc2.2, hb4.1, hb4.2]
  have hs3err : |fpVal s3 - ((a1:ℚ)/8 + (a2:ℚ)/10 + (a3:ℚ)/10 + (a4:ℚ)/10)| ≤ 1/2^44 := by
    have htri := abs_sub_le (fpVal s3) (fpVal s2 + fpVal p4)
      ((a1:ℚ)/8 + (a2:ℚ)/10 + (a3:ℚ)/10 + (a4:ℚ)/10)
    have hsplit : fpVal s2 + fpVal p4 - ((a1:ℚ)/8 + (a2:ℚ)/10 + (a3:ℚ)/10 + (a4:ℚ)/10)
        = (fpVal s2 - ((a1:ℚ)/8 + (a2:ℚ)/10 + (a3:ℚ)/10)) + (fpVal p4 - (a4:ℚ)/10) := by
      ring
    rw [hsplit] at htri
    have htri2 := abs_add (fpVal s2 - ((a1:ℚ)/8 + (a2:ℚ)/10 + (a3:ℚ)/10))
      (fpVal p4 - (a4:ℚ)/10)
    linarith
  have hc3 := abs_le.mp hs3err
  have hab4 : |fpVal s3 + fpVal p5| ≤ 15 := by
    rw [abs_le]
    constructor <;> linarith [hc3.1, hc3.2, hb5.1, hb5.2]
  have hswerr : |fpVal sw - ((a1:ℚ)/8 + (a2:ℚ)/10 + (a3:ℚ)/10 + (a4:ℚ)/10 + 3*(a5:ℚ)/40)|
      ≤ 1/2^43 := by
    have htri := abs_sub_le (fpVal sw) (fpVal s3 + fpVal p5)
      ((a1:ℚ)/8 + (a2:ℚ)/10 + (a3:ℚ)/10 + (a4:ℚ)/10 + 3*(a5:ℚ)/40)
    have hsplit : fpVal s3 + fpVal p5
        - ((a1:ℚ)/8 + (a2:ℚ)/10 + (a3:ℚ)/10 + (a4:ℚ)/10 + 3*(a5:ℚ)/40)
        = (fpVal s3 - ((a1:ℚ)/8 + (a2:ℚ)/10 + (a3:ℚ)/10 + (a4:ℚ)/10))
          + (fpVal p5 - 3*(a5:ℚ)/40) := by ring
    rw [hsplit] at htri
    have htri2 := abs_add (fpVal s3 - ((a1:ℚ)/8 + (a2:ℚ)/10 + (a3:ℚ)/10 + (a4:ℚ)/10))
      (fpVal p5 - 3*(a5:ℚ)/40)
    linarith
  -- the exact weighted sum is N/40
  have hEN : (a1:ℚ)/8 + (a2:ℚ)/10 + (a3:ℚ)/10 + (a4:ℚ)/10 + 3*(a5:ℚ)/40 = (N:ℚ)/40 := by
    rw [hN]
    push_cast
    ring
  have hfinal : |fpVal sw - (N:ℚ)/40| ≤ 1/2^43 := by
    rw [← hEN]
    exact hswerr
  -- the rounding target and its distance from the exact doubled sum
  have hNt1 : -9 ≤ N - 20 * t := by omega
  have hNt2 : N - 20 * t ≤ 9 := by omega
  have hgap : |(N:ℚ)/20 - (t:ℚ)| ≤ 9/20 := by
    have hq1 : (-9:ℚ) ≤ (N:ℚ) - 20*(t:ℚ) := by exact_mod_cast hNt1
    have hq2 : (N:ℚ) - 20*(t:ℚ) ≤ 9 := by exact_mod_cast hNt2
    rw [abs_le]
    constructor <;> linarith
  have hdist : |fpVal ((fpWeightedSum a1 a2 a3 a4 a5).1,
      (fpWeightedSum a1 a2 a3 a4 a5).2 + 1) - (t:ℚ)| < 1/2 := by
    rw [hfold, fpVal_bump]
    have he : 2 * fpVal sw - (t:ℚ) = 2*(fpVal sw - (N:ℚ)/40) + ((N:ℚ)/20 - (t:ℚ)) := by
      ring
    rw [he]
    have htri := abs_add (2*(fpVal sw - (N:ℚ)/40)) ((N:ℚ)/20 - (t:ℚ))
    have habs2 : |2*(fpVal sw - (N:ℚ)/40)| = 2 * |fpVal sw - (N:ℚ)/40| := by
      rw [abs_mul]
      norm_num
    rw [habs2] at htri
    linarith
  have hOI : overallInt a1 a2 a3 a4 a5 = t := by
    unfold overallInt
    exact pyRoundFP_near _ t hdist
  unfold overallScoreFP
  rw [hOI]
  unfold roundHalfUpHalf
  have harg : 2 * exactOverall a1 a2 a3 a4 a5 + 1/2 = ((N + 10 : ℤ) : ℚ) / ((20:ℕ) : ℚ) := by
    unfold exactOverall
    rw [hN]
    push_cast
    ring
  rw [harg, Rat.floor_intCast_div_natCast, ht]
  norm_num

/-- C4 counterexample: with category scores `(1, 1, 1, 1.5, 2)` (doubled:
`2 2 2 3 4`) the exact weighted sum is `1.25`; rounding to the nearest 0.5
with ties upward gives `1.5`, but the program returns `1.0` — the binary64
sum is exactly `1.25`, `overall_score * 2` is exactly `2.5`, and Python's
round-half-to-even sends `2.5` to `2`, not `3`. The spec's round-half-up
tie rule is therefore violated. -/
theorem c4_counterexample :
    overallScoreFP 2 2 2 3 4 = 1 ∧ roundHalfUpHalf (exactOverall 2 2 2 3 4) = 3/2 ∧
      ¬ overallScoreFP 2 2 2 3 4 = roundHalfUpHalf (exactOverall 2 2 2 3 4) := by
  have h1 : overallInt 2 2 2 3 4 = 2 := by decide
  have hL : overallScoreFP 2 2 2 3 4 = 1 := by
    unfold overallScoreFP
    rw [h1]
    norm_num
  have hR : roundHalfUpHalf (exactOverall 2 2 2 3 4) = 3/2 := by
    have harg : 2 * exactOverall 2 2 2 3 4 + 1/2 = ((3:ℤ):ℚ) := by
      unfold exactOverall
      norm_num
    unfold roundHalfUpHalf
    rw [harg, Int.floor_intCast]
    norm_num
  refine ⟨hL, hR, ?_⟩
  rw [hL, hR]
  norm_num

/-- C4 witness: the non-tie theorem instantiated at the concrete doubled
scores `(20, 20, 20, 20, 20)` (all category scores `10.0`), where every
hypothesis holds by computation. -/
theorem c4_witness :
    overallScoreFP 20 20 20 20 20 = roundHalfUpHalf (exactOverall 20 20 20 20 20) :=
  c4_overall_weighted_nontie 20 20 20 20 20 (by decide) (by decide) (by decide) (by decide)
    (by decide) (by decide) (by decide) (by decide) (by decide) (by decide) (by decide)

end MCPScan
